import Mathlib

/-!
Simple C compiler, phase 6: storage allocation and code generation.

A shallow embedding of `src/phase6/allocator.cpp` and `src/phase6/generator.cpp`.

Conventions of the embedding.

* The C++ types `int` and `unsigned` are 32 bits wide; their values are embedded as `Int` and
  `Nat`.  Arithmetic in `unsigned` is arithmetic modulo 2^32: the products of `Type::size` are
  reduced modulo 2^32, and the two assignments that subtract an `unsigned` from an `int`
  (`offset -= size` in `Block::allocate`, `offset -= max_args` in `Function::generate`) compute
  the difference modulo 2^32 and convert it back to `int` (`wrapInt`).  Arithmetic between `int`
  operands is embedded as exact arithmetic: its overflow is undefined behaviour, and the
  statements that give the values computed in closed form carry a bound that excludes it.  The
  C++ operator `%` on `int` is truncated division, `Int.tmod`.
* Parameters and arguments are scalar values (a `char`, an `int`, a `double` or a pointer); the
  running sums of their sizes in `Function::allocate` and in `Call::generate` are embedded as
  exact additions.
* A failed `assert` (and an out-of-range `symbols[i]`) aborts the compiler: the embedded function
  returns `none`.
* A `Symbol` object is identified by `Symbol.id`; its only mutable field, `offset`, lives in a
  store `Offsets` indexed by that identity.  A function that receives the tree and mutates symbol
  offsets takes the store and returns the new one.
* The header `machine.h` is not among the sources: the constants it defines are the fields of
  `Machine`.  The headers `Tree.h` and `Type.h` are not among the sources either: the members
  that the two files use without defining them are described where they are embedded.
-/

namespace SimpleC

/-! ## Data model -/

/-- The constants of `machine.h`, which the two source files use by name.  The numeric
constants are values of type `int`: each one is below 2^31. -/
structure Machine where
  SIZEOF_CHAR : Nat
  SIZEOF_INT : Nat
  SIZEOF_DOUBLE : Nat
  SIZEOF_PTR : Nat
  SIZEOF_REG : Nat
  STACK_ALIGNMENT : Nat
  global_prefix : String
  int_constants : SIZEOF_CHAR < 2147483648 ∧ SIZEOF_INT < 2147483648 ∧
    SIZEOF_DOUBLE < 2147483648 ∧ SIZEOF_PTR < 2147483648 ∧ SIZEOF_REG < 2147483648 ∧
    STACK_ALIGNMENT < 2147483648

/-- The declarator of a type. -/
inductive Declarator where
  | SCALAR
  | ARRAY
  | FUNCTION
  | ERROR
  deriving DecidableEq, Repr

/-- The specifier of a type: a token code.  `Type::size` names three of them; every other token
is `OTHER`. -/
inductive Specifier where
  | DOUBLE
  | INT
  | CHAR
  | OTHER (token : Nat)
  deriving DecidableEq, Repr

/-- The class `Type`: the fields `_specifier`, `_indirection`, `_declarator`, `_length`.  (The
parameter list of a function type is kept in `Function.parameters`.) -/
structure CType where
  specifier : Specifier
  indirection : Nat
  declarator : Declarator
  length : Nat
  deriving DecidableEq, Repr

/-- The function `Type::size`: the size of a type in bytes; `none` when the assertion fails.
The result is an `unsigned`, and so is `count`: each product is the product modulo 2^32. -/
def CType.size (m : Machine) (t : CType) : Option Nat :=
  if t.declarator ≠ Declarator.FUNCTION ∧ t.declarator ≠ Declarator.ERROR then
    let count := if t.declarator = Declarator.ARRAY then t.length else 1
    if t.indirection > 0 then
      some (count * m.SIZEOF_PTR % 4294967296)
    else if t.specifier = Specifier.DOUBLE then
      some (count * m.SIZEOF_DOUBLE % 4294967296)
    else if t.specifier = Specifier.INT then
      some (count * m.SIZEOF_INT % 4294967296)
    else if t.specifier = Specifier.CHAR then
      some (count * m.SIZEOF_CHAR % 4294967296)
    else
      some 0
  else
    none

/-- Modelled from the spec: `Type::promote`, whose definition is not among the sources.  A
character parameter is widened to a full word when passed; every other type is passed as it
is. -/
def CType.promote (t : CType) : CType :=
  if t.declarator = Declarator.SCALAR ∧ t.indirection = 0 ∧ t.specifier = Specifier.CHAR then
    ⟨Specifier.INT, 0, Declarator.SCALAR, t.length⟩
  else
    t

/-- Modelled from the spec: `Type::isReal`, whose definition is not among the sources: the type
is a floating-point value. -/
def CType.isReal (t : CType) : Bool :=
  decide (t.declarator = Declarator.SCALAR ∧ t.indirection = 0 ∧ t.specifier = Specifier.DOUBLE)

/-- The class `Symbol` without its mutable field: the identity of the object, its name and its
type. -/
structure Symbol where
  id : Nat
  name : String
  type : CType
  deriving DecidableEq, Repr

/-- The field `offset` of every `Symbol` object, by identity. -/
abbrev Offsets := Nat → Int

/-- The assignment `symbol->offset = offset`. -/
def setOffset (σ : Offsets) (id : Nat) (offset : Int) : Offsets :=
  fun j => if j = id then offset else σ j

/-- Modelled from the spec: the expression classes of `Tree.h`, which is not among the sources.
`Identifier`, `Integer` and `Call` are the classes that `generator.cpp` defines members for,
with the fields it reads (`_symbol`, `_value`, `_id`, `_args`); `Other` is any other expression
class, which inherits `Expression::operand` and an empty `generate`.  `offset` is the member
`Expression::offset`, the slot of a temporary, that `Expression::operand` reads. -/
inductive Expression where
  | Identifier (type : CType) (symbol : Symbol)
  | Integer (type : CType) (value : String)
  | Call (type : CType) (offset : Int) (id : Symbol) (args : List Expression)
  | Other (type : CType) (offset : Int)

/-- The member `Expression::type`. -/
def Expression.type : Expression → CType
  | Expression.Identifier t _ => t
  | Expression.Integer t _ => t
  | Expression.Call t _ _ _ => t
  | Expression.Other t _ => t

/-- Modelled from the spec: the statement classes of `Tree.h`, which is not among the sources.
`Block`, `While`, `For` and `If` are the classes that `allocator.cpp` defines `allocate` for,
with the fields it reads (`_elseStmt` is `none` for the null pointer; the initialisation and
increment of a `For` are assignments and are left out); `Assignment` and an expression used as a
statement (`Expr`) are the ones that `generator.cpp` emits code for; `Other` is any other
statement class.  A class for which the two files define no `allocate` or no `generate` inherits
an empty one. -/
inductive Statement where
  | Block (decls : List Symbol) (stmts : List Statement)
  | While (expr : Expression) (stmt : Statement)
  | For (expr : Expression) (stmt : Statement)
  | If (expr : Expression) (thenStmt : Statement) (elseStmt : Option Statement)
  | Assignment (left : Expression) (right : Expression)
  | Expr (expr : Expression)
  | Other

/-- The class `Function`: `_id`, the parameter types `_id->type().parameters()->types`, and the
body, a `Block` with the symbols `_body->declarations()->symbols()` (the parameters first) and
its statements. -/
structure Function where
  id : Symbol
  parameters : List CType
  decls : List Symbol
  stmts : List Statement

/-- The member `_body` of a `Function`. -/
def Function.body (f : Function) : Statement :=
  Statement.Block f.decls f.stmts

/-! ## Storage allocation (`allocator.cpp`) -/

/-- The value that an `int` variable holds after it has been assigned the result `x` of an
operation carried out in `unsigned` arithmetic: the integer from -2^31 to 2^31 - 1 that is
congruent to `x` modulo 2^32. -/
def wrapInt (x : Int) : Int :=
  (x + 2147483648) % 4294967296 - 2147483648

/-- The first loop of `Block::allocate`: every symbol of the block whose offset is still 0 is
given the next slot below `offset`.  The assignment `offset -= size` subtracts an `unsigned`
from an `int`: the difference is taken modulo 2^32 and converted back to `int`. -/
def allocateSymbols (m : Machine) : List Symbol → Offsets → Int → Option (Offsets × Int)
  | [], σ, offset => some (σ, offset)
  | s :: rest, σ, offset =>
    if σ s.id = 0 then
      match s.type.size m with
      | none => none
      | some n =>
        allocateSymbols m rest (setOffset σ s.id (wrapInt (offset - n))) (wrapInt (offset - n))
    else
      allocateSymbols m rest σ offset

mutual
/-- The virtual member `allocate`: `Block::allocate`, `While::allocate`, `For::allocate`,
`If::allocate`, and the inherited empty body for the other statements.  The result is the new
store and the new value of the in/out argument `offset`. -/
def Statement.allocate (m : Machine) : Statement → Offsets → Int → Option (Offsets × Int)
  | Statement.Block decls stmts, σ, offset =>
    match allocateSymbols m decls σ offset with
    | none => none
    | some (σ1, offset1) => allocateStmts m stmts offset1 σ1 offset1
  | Statement.While _ stmt, σ, offset => Statement.allocate m stmt σ offset
  | Statement.For _ stmt, σ, offset => Statement.allocate m stmt σ offset
  | Statement.If _ thenStmt none, σ, offset => Statement.allocate m thenStmt σ offset
  | Statement.If _ thenStmt (some elseStmt), σ, offset =>
    match Statement.allocate m thenStmt σ offset with
    | none => none
    | some (σ1, offset1) =>
      match Statement.allocate m elseStmt σ1 offset with
      | none => none
      | some (σ2, temp) => some (σ2, min offset1 temp)
  | Statement.Assignment _ _, σ, offset => some (σ, offset)
  | Statement.Expr _, σ, offset => some (σ, offset)
  | Statement.Other, σ, offset => some (σ, offset)
/-- The second loop of `Block::allocate`: every statement is allocated from `saved`, and
`offset` keeps the minimum. -/
def allocateStmts (m : Machine) : List Statement → Int → Offsets → Int → Option (Offsets × Int)
  | [], _, σ, offset => some (σ, offset)
  | stmt :: rest, saved, σ, offset =>
    match Statement.allocate m stmt σ saved with
    | none => none
    | some (σ1, temp) => allocateStmts m rest saved σ1 (min offset temp)
end

/-- The loop of `Function::allocate`: parameter `i` is `symbols[i]`; it gets the running offset,
which then advances by the size of the promoted parameter type. -/
def allocateParameters (m : Machine) :
    List CType → List Symbol → Offsets → Int → Option (Offsets × Int)
  | [], _, σ, offset => some (σ, offset)
  | _ :: _, [], _, _ => none
  | t :: types, s :: symbols, σ, offset =>
    match t.promote.size m with
    | none => none
    | some n => allocateParameters m types symbols (setOffset σ s.id offset) (offset + n)

/-- The function `Function::allocate`. -/
def Function.allocate (m : Machine) (f : Function) (σ : Offsets) (offset : Int) :
    Option (Offsets × Int) :=
  match allocateParameters m f.parameters f.decls σ offset with
  | none => none
  | some (σ1, _) => Statement.allocate m f.body σ1 0

/-! ## Code generation (`generator.cpp`) -/

/-- The function `align`: the number of bytes needed to align the given offset. -/
def align (m : Machine) (offset : Int) : Int :=
  if offset.tmod m.STACK_ALIGNMENT = 0 then
    0
  else
    m.STACK_ALIGNMENT - (|offset|).tmod m.STACK_ALIGNMENT

/-- The virtual member `operand`: `Identifier::operand`, `Integer::operand`, and the inherited
`Expression::operand`, whose assertion fails on a zero offset. -/
def Expression.operand (m : Machine) (σ : Offsets) : Expression → Option String
  | Expression.Identifier _ symbol =>
    if σ symbol.id = 0 then
      some ( m.global_prefix ++ symbol.name)
    else
      some (toString (σ symbol.id) ++ "(%ebp)")
  | Expression.Integer _ value => some ("$" ++ value)
  | Expression.Call _ offset _ _ =>
    if offset ≠ 0 then some (toString offset ++ "(%ebp)") else none
  | Expression.Other _ offset =>
    if offset ≠ 0 then some (toString offset ++ "(%ebp)") else none

/-- The text written to `cout` so far and the file-static `max_args`. -/
structure GenState where
  out : String
  max_args : Nat

/-- The second loop of `Call::generate`: the arguments are moved onto the stack at increasing
offsets from the stack pointer.  The result is the text and the final value of `offset`. -/
def marshal (m : Machine) (σ : Offsets) : List Expression → String → Nat → Option (String × Nat)
  | [], out, offset => some (out, offset)
  | arg :: rest, out, offset =>
    match Expression.operand m σ arg with
    | none => none
    | some a =>
      match arg.type.size m with
      | none => none
      | some size =>
        if arg.type.isReal then
          marshal m σ rest
            (out ++ "\tfldl\t" ++ a ++ "\n" ++ "\tfstpl\t" ++ toString offset ++ "(%esp)" ++ "\n")
            (offset + size)
        else
          marshal m σ rest
            (out ++ "\tmovl\t" ++ a ++ ", %eax" ++ "\n" ++
              "\tmovl\t%eax, " ++ toString offset ++ "(%esp)" ++ "\n")
            (offset + size)

mutual
/-- The virtual member `generate` of an expression: `Call::generate`, and the inherited empty
body for the other expressions. -/
def Expression.generate (m : Machine) (σ : Offsets) : Expression → GenState → Option GenState
  | Expression.Call _ _ id args, st =>
    match generateArgs m σ args st with
    | none => none
    | some st1 =>
      match marshal m σ args st1.out 0 with
      | none => none
      | some (out, offset) =>
        some ⟨out ++ "\tcall\t" ++ m.global_prefix ++ id.name ++ "\n",
          if offset > st1.max_args then offset else st1.max_args⟩
  | Expression.Identifier _ _, st => some st
  | Expression.Integer _ _, st => some st
  | Expression.Other _ _, st => some st
/-- The first loop of `Call::generate`: code is generated for every argument. -/
def generateArgs (m : Machine) (σ : Offsets) : List Expression → GenState → Option GenState
  | [], st => some st
  | arg :: rest, st =>
    match Expression.generate m σ arg st with
    | none => none
    | some st1 => generateArgs m σ rest st1
end

mutual
/-- The virtual member `generate` of a statement: `Block::generate`, `Assignment::generate`, the
`generate` of an expression used as a statement, and the inherited empty body for the other
statements. -/
def Statement.generate (m : Machine) (σ : Offsets) : Statement → GenState → Option GenState
  | Statement.Block _ stmts, st => generateStmts m σ stmts st
  | Statement.Assignment left right, st =>
    match Expression.operand m σ right with
    | none => none
    | some r =>
      match Expression.operand m σ left with
      | none => none
      | some l => some ⟨st.out ++ "\tmovl\t" ++ r ++ ", " ++ l ++ "\n", st.max_args⟩
  | Statement.Expr expr, st => Expression.generate m σ expr st
  | Statement.While _ _, st => some st
  | Statement.For _ _, st => some st
  | Statement.If _ _ _, st => some st
  | Statement.Other, st => some st
/-- The loop of `Block::generate`. -/
def generateStmts (m : Machine) (σ : Offsets) : List Statement → GenState → Option GenState
  | [], st => some st
  | stmt :: rest, st =>
    match Statement.generate m σ stmt st with
    | none => none
    | some st1 => generateStmts m σ rest st1
end

/-- The frame-size computation of `Function::generate`: the two assignments
`offset -= max_args; offset -= align(offset - SIZEOF_REG * 2);`.  The first one subtracts the
`unsigned` `max_args` from the `int` `offset`: the difference is taken modulo 2^32 and
converted back to `int`.  The second one is between `int` operands. -/
def frameOffset (m : Machine) (offset : Int) (max_args : Nat) : Int :=
  wrapInt (offset - max_args) - align m (wrapInt (offset - max_args) - m.SIZEOF_REG * 2)

/-- What a call of `Function::generate` leaves: the symbol offsets, the text written to `cout`,
and the file-statics `max_args` and `offset`. -/
structure Generated where
  offsets : Offsets
  out : String
  max_args : Nat
  offset : Int

/-- The function `Function::generate`. -/
def Function.generate (m : Machine) (f : Function) (σ : Offsets) : Option Generated :=
  match Function.allocate m f σ (m.SIZEOF_REG * 2) with
  | none => none
  | some (σ1, offset) =>
    match Statement.generate m σ1 f.body
        ⟨ m.global_prefix ++ f.id.name ++ ":" ++ "\n" ++
          "\tpushl\t%ebp" ++ "\n" ++
          "\tmovl\t%esp, %ebp" ++ "\n" ++
          "\tsubl\t$" ++ f.id.name ++ ".size, %esp" ++ "\n", 0⟩ with
    | none => none
    | some st =>
      some ⟨σ1,
        st.out ++ "\tmovl\t%ebp, %esp" ++ "\n" ++
          "\tpopl\t%ebp" ++ "\n" ++
          "\tret" ++ "\n" ++ "\n" ++
          "\t.set\t" ++ f.id.name ++ ".size, " ++
            toString (-(frameOffset m offset st.max_args)) ++ "\n" ++
          "\t.globl\t" ++ m.global_prefix ++ f.id.name ++ "\n" ++ "\n",
        st.max_args,
        frameOffset m offset st.max_args⟩

/-- Modelled from the spec: `Type::isFunction`, whose definition is not among the sources: the
type is that of a function. -/
def CType.isFunction (t : CType) : Bool :=
  decide (t.declarator = Declarator.FUNCTION)

/-- The function `generateGlobals`: the first argument is `scope->symbols()`, the second the
text written to `cout` so far; the result is the text after the loop. -/
def generateGlobals (m : Machine) : List Symbol → String → Option String
  | [], out => some out
  | symbol :: rest, out =>
    if !symbol.type.isFunction then
      match symbol.type.size m with
      | none => none
      | some n =>
        generateGlobals m rest
          (out ++ "\t.comm\t" ++ m.global_prefix ++ symbol.name ++ ", " ++ toString n ++ "\n")
    else
      generateGlobals m rest out

/-! ## Vocabulary of the properties -/

mutual
/-- The symbols declared in a statement: those of every block inside it, in the order in which
`allocate` visits them. -/
def Statement.symbols : Statement → List Symbol
  | Statement.Block decls stmts => decls ++ symbolsOfStmts stmts
  | Statement.While _ stmt => Statement.symbols stmt
  | Statement.For _ stmt => Statement.symbols stmt
  | Statement.If _ thenStmt none => Statement.symbols thenStmt
  | Statement.If _ thenStmt (some elseStmt) =>
    Statement.symbols thenStmt ++ Statement.symbols elseStmt
  | Statement.Assignment _ _ => []
  | Statement.Expr _ => []
  | Statement.Other => []
/-- The symbols declared in a list of statements. -/
def symbolsOfStmts : List Statement → List Symbol
  | [] => []
  | stmt :: rest => Statement.symbols stmt ++ symbolsOfStmts rest
end

/-- The identities of the symbols declared in a statement. -/
def Statement.ids (s : Statement) : List Nat :=
  (Statement.symbols s).map Symbol.id

/-- The minimum of `offset` and of the numbers in `l`. -/
def minOffset (offset : Int) (l : List Int) : Int :=
  l.foldl min offset

mutual
/-- The scope chains of a statement: for every block inside it, the declarations of the blocks
that enclose it (outermost first) followed by its own.  The symbols of one chain are those that
are in scope together. -/
def Statement.scopes : Statement → List (List Symbol)
  | Statement.Block decls stmts => decls :: (scopesOfStmts stmts).map (decls ++ ·)
  | Statement.While _ stmt => Statement.scopes stmt
  | Statement.For _ stmt => Statement.scopes stmt
  | Statement.If _ thenStmt none => Statement.scopes thenStmt
  | Statement.If _ thenStmt (some elseStmt) =>
    Statement.scopes thenStmt ++ Statement.scopes elseStmt
  | Statement.Assignment _ _ => []
  | Statement.Expr _ => []
  | Statement.Other => []
/-- The scope chains of a list of statements. -/
def scopesOfStmts : List Statement → List (List Symbol)
  | [] => []
  | stmt :: rest => Statement.scopes stmt ++ scopesOfStmts rest
end

/-- The locals declared in the outermost block of a function. -/
def Function.locals (f : Function) : List Symbol :=
  f.decls.drop f.parameters.length

/-- The scope chains of the locals of a function. -/
def Function.scopes (f : Function) : List (List Symbol) :=
  f.locals :: (scopesOfStmts f.stmts).map (f.locals ++ ·)

/-- The symbols of the list occupy consecutive slots from `base` down to `bottom`: each one lies
exactly the size of its type below the slot boundary before it, and the last one at `bottom`. -/
def Slots (m : Machine) (σ : Offsets) : Int → List Symbol → Int → Prop
  | base, [], bottom => bottom = base
  | base, s :: rest, bottom =>
    ∃ n, s.type.size m = some n ∧ σ s.id = base - n ∧ Slots m σ (base - n) rest bottom

/-- The footprint of a call: the sum of the sizes of the types of its arguments. -/
def footprint (m : Machine) (args : List Expression) : Nat :=
  (args.map (fun arg => (arg.type.size m).getD 0)).sum

mutual
/-- The footprints of the calls that generating an expression generates, in order of
completion: those inside the arguments of a call, then the call. -/
def Expression.callFootprints (m : Machine) : Expression → List Nat
  | Expression.Call _ _ _ args => footprintsOfArgs m args ++ [footprint m args]
  | Expression.Identifier _ _ => []
  | Expression.Integer _ _ => []
  | Expression.Other _ _ => []
/-- The footprints of the calls generated for a list of arguments. -/
def footprintsOfArgs (m : Machine) : List Expression → List Nat
  | [] => []
  | arg :: rest => Expression.callFootprints m arg ++ footprintsOfArgs m rest
end

mutual
/-- The footprints of the calls that generating a statement generates. -/
def Statement.callFootprints (m : Machine) : Statement → List Nat
  | Statement.Block _ stmts => footprintsOfStmts m stmts
  | Statement.Expr expr => Expression.callFootprints m expr
  | Statement.Assignment _ _ => []
  | Statement.While _ _ => []
  | Statement.For _ _ => []
  | Statement.If _ _ _ => []
  | Statement.Other => []
/-- The footprints of the calls generated for a list of statements. -/
def footprintsOfStmts (m : Machine) : List Statement → List Nat
  | [] => []
  | stmt :: rest => Statement.callFootprints m stmt ++ footprintsOfStmts m rest
end

/-- The extent of a list of symbols: the sum of the sizes of their types, the number of bytes
that they take when each one gets a slot of its own. -/
def extent (m : Machine) (l : List Symbol) : Nat :=
  (l.map (fun s => (s.type.size m).getD 0)).sum

mutual
/-- The statement without the declarations of the symbols that `allocated` marks. -/
def Statement.prune (allocated : Nat → Bool) : Statement → Statement
  | Statement.Block decls stmts =>
    Statement.Block (decls.filter (fun s => !allocated s.id)) (pruneStmts allocated stmts)
  | Statement.While expr stmt => Statement.While expr (Statement.prune allocated stmt)
  | Statement.For expr stmt => Statement.For expr (Statement.prune allocated stmt)
  | Statement.If expr thenStmt none =>
    Statement.If expr (Statement.prune allocated thenStmt) none
  | Statement.If expr thenStmt (some elseStmt) =>
    Statement.If expr (Statement.prune allocated thenStmt)
      (some (Statement.prune allocated elseStmt))
  | Statement.Assignment left right => Statement.Assignment left right
  | Statement.Expr expr => Statement.Expr expr
  | Statement.Other => Statement.Other
/-- The statements of a list, each without the declarations of the marked symbols. -/
def pruneStmts (allocated : Nat → Bool) : List Statement → List Statement
  | [] => []
  | stmt :: rest => Statement.prune allocated stmt :: pruneStmts allocated rest
end

/-- The line that `generateGlobals` writes for a symbol of size `n`. -/
def commLine (m : Machine) (symbol : Symbol) (n : Nat) : String :=
  "\t.comm\t" ++ m.global_prefix ++ symbol.name ++ ", " ++ toString n ++ "\n"

/-- A 32-bit Intel target whose stack is aligned on 4 bytes. -/
def ia32 : Machine :=
  ⟨1, 4, 8, 4, 4, 4, "", by decide⟩

/-- A 32-bit Intel target whose stack is aligned on 16 bytes. -/
def ia32_16 : Machine :=
  ⟨1, 4, 8, 4, 4, 16, "_", by decide⟩

/-- The type `int`. -/
def tINT : CType := ⟨Specifier.INT, 0, Declarator.SCALAR, 0⟩

/-- The type `char`. -/
def tCHAR : CType := ⟨Specifier.CHAR, 0, Declarator.SCALAR, 0⟩

/-- The type `double`. -/
def tDOUBLE : CType := ⟨Specifier.DOUBLE, 0, Declarator.SCALAR, 0⟩

/-- The type of `int *a[10]`: an array of ten pointers. -/
def tPtrArray : CType := ⟨Specifier.INT, 1, Declarator.ARRAY, 10⟩

/-- The type of `double a[3]`. -/
def tDoubleArray : CType := ⟨Specifier.DOUBLE, 0, Declarator.ARRAY, 3⟩

/-- The type of `int *a[1073741824]`: 2^30 pointers. -/
def tHugePtrArray : CType := ⟨Specifier.INT, 1, Declarator.ARRAY, 1073741824⟩

/-- The type of `int a[1073741824]`: 2^30 integers. -/
def tHugeIntArray : CType := ⟨Specifier.INT, 0, Declarator.ARRAY, 1073741824⟩

/-- The type of `char a[length]`. -/
def charArray (length : Nat) : CType := ⟨Specifier.CHAR, 0, Declarator.ARRAY, length⟩

/-- The store in which no symbol has been allocated. -/
def unallocated : Offsets := fun _ => 0

/-- The literal `1`, used as a condition. -/
def one : Expression := Expression.Integer tINT "1"

/-- The local `int` number `i`, named `name`. -/
def intLocal (i : Nat) (name : String) : Symbol := ⟨i, name, tINT⟩

/-- The block `{ int a; }`. -/
def oneLocal : Statement := Statement.Block [intLocal 1 "a"] []

/-- The block `{ int b; int c; }`. -/
def twoLocals : Statement := Statement.Block [intLocal 2 "b", intLocal 3 "c"] []

/-- The statement `if (1) { int a; } else { int b; int c; }`. -/
def ifOneTwo : Statement :=
  Statement.If one oneLocal (some twoLocals)

/-- The statement `if (1) { int d; int e; } else { int g; }`. -/
def ifTwoOne : Statement :=
  Statement.If one (Statement.Block [intLocal 4 "d", intLocal 5 "e"] [])
    (some (Statement.Block [intLocal 6 "g"] []))

/-- The block `{ if (1) { int a; } else { int b; int c; }  if (1) { int d; int e; } else
{ int g; } }`. -/
def twoIfs : Statement :=
  Statement.Block [] [ifOneTwo, ifTwoOne]

/-- The block `{ char big[3000000000]; int x; }`. -/
def bigBlock : Statement :=
  Statement.Block [⟨1, "big", charArray 3000000000⟩, intLocal 2 "x"] []

/-- The function `int g(char c, int n) { int x; { double y; } }`. -/
def charParameter : Function :=
  ⟨⟨0, "g", ⟨Specifier.INT, 0, Declarator.FUNCTION, 0⟩⟩, [tCHAR, tINT],
    [⟨1, "c", tCHAR⟩, ⟨2, "n", tINT⟩, intLocal 3 "x"],
    [Statement.Block [⟨4, "y", tDOUBLE⟩] []]⟩

/-- The integer literal `text`. -/
def lit (text : String) : Expression := Expression.Integer tINT text

/-- The store in which the parameters `c` and `n` of `charParameter` are at 8 and 12 and no
other symbol is allocated. -/
def parametersOnly : Offsets := fun i => if i = 1 then 8 else if i = 2 then 12 else 0

/-- The call `p(1, 2)`, whose temporary is at `offset`. -/
def callP (offset : Int) : Expression :=
  Expression.Call tINT offset ⟨2, "p", ⟨Specifier.INT, 0, Declarator.FUNCTION, 0⟩⟩
    [lit "1", lit "2"]

/-- The assignment `x = p(1, 2)`, where the temporary of the call is at `offset`. -/
def assignCall (offset : Int) : Statement :=
  Statement.Assignment (Expression.Identifier tINT (intLocal 1 "x")) (callP offset)

/-- The assignment `x = 1`. -/
def assignLiteral : Statement :=
  Statement.Assignment (Expression.Identifier tINT (intLocal 1 "x")) (lit "1")

/-- The store in which the local `x` is at -4. -/
def xAllocated : Offsets := fun i => if i = 1 then -4 else 0

/-- The global scope of `int x; int f(); double a[3]; char *s;`. -/
def globals : List Symbol :=
  [intLocal 1 "x", ⟨2, "f", ⟨Specifier.INT, 0, Declarator.FUNCTION, 0⟩⟩,
    ⟨3, "a", tDoubleArray⟩, ⟨4, "s", ⟨Specifier.CHAR, 1, Declarator.SCALAR, 0⟩⟩]

/-! ## `Type::size` -/

/-- C8 fails as stated: on the 4-byte-pointer target an array of ten pointers has size 40, not
the pointer width 4; and an array of 2^30 pointers has size 0, the product 2^32 reduced modulo
2^32. -/
theorem C8_size_pointer_array_counterexample :
    (tPtrArray.declarator = Declarator.ARRAY ∧ tPtrArray.indirection > 0) ∧
      tPtrArray.size ia32 = some 40 ∧ tPtrArray.size ia32 ≠ some ia32.SIZEOF_PTR ∧
      (tHugePtrArray.declarator = Declarator.ARRAY ∧ tHugePtrArray.indirection > 0) ∧
      tHugePtrArray.size ia32 = some 0 ∧ tHugePtrArray.size ia32 ≠ some ia32.SIZEOF_PTR ∧
      tHugePtrArray.length * ia32.SIZEOF_PTR = 4294967296 := by
  decide

/-- C8 (amended): for a type with declarator SCALAR or ARRAY and indirection > 0, whatever its
specifier, `Type::size` is the pointer width for a SCALAR and, for an ARRAY, the length times
the pointer width reduced modulo 2^32: the length times the pointer width itself when that is
below 2^32. -/
theorem C8_size_pointer (m : Machine) (t : CType)
    (hd : t.declarator = Declarator.SCALAR ∨ t.declarator = Declarator.ARRAY)
    (hi : t.indirection > 0) :
    t.size m = some ((if t.declarator = Declarator.ARRAY then t.length else 1) *
        m.SIZEOF_PTR % 4294967296) ∧
      (t.declarator = Declarator.SCALAR → t.size m = some m.SIZEOF_PTR) ∧
      (t.declarator = Declarator.ARRAY → t.length * m.SIZEOF_PTR < 4294967296 →
        t.size m = some (t.length * m.SIZEOF_PTR)) := by
  have hP := m.int_constants.2.2.2.1
  have h1 : t.size m = some ((if t.declarator = Declarator.ARRAY then t.length else 1) *
      m.SIZEOF_PTR % 4294967296) := by
    rcases hd with hd | hd <;> simp [CType.size, hd, hi]
  refine ⟨h1, fun hs => ?_, fun ha hlt => ?_⟩
  · rw [h1, if_neg (by rw [hs]; decide), Nat.one_mul, Nat.mod_eq_of_lt (by omega)]
  · rw [h1, if_pos ha, Nat.mod_eq_of_lt hlt]

/-- C8 (amended), applied to an array of ten pointers on the 4-byte-pointer target. -/
theorem C8_size_pointer_witness : tPtrArray.size ia32 = some (10 * 4) :=
  (C8_size_pointer ia32 tPtrArray (Or.inr rfl) (by decide)).2.2 rfl (by decide)

/-- C9 fails as stated: `int a[1073741824]` has indirection 0, the declarator ARRAY and the
specifier INT, and on the 4-byte-integer target its size is 0, not 4 * 1073741824: the product
is 2^32, reduced modulo 2^32. -/
theorem C9_size_specifier_counterexample :
    tHugeIntArray.indirection = 0 ∧ tHugeIntArray.declarator = Declarator.ARRAY ∧
      tHugeIntArray.specifier = Specifier.INT ∧
      tHugeIntArray.size ia32 = some 0 ∧
      ia32.SIZEOF_INT * tHugeIntArray.length = 4294967296 ∧
      tHugeIntArray.size ia32 ≠ some (ia32.SIZEOF_INT * tHugeIntArray.length) := by
  decide

/-- C9 (amended): for a type with indirection 0 and declarator SCALAR or ARRAY, `Type::size` is
the width of the specifier (DOUBLE, INT, CHAR) times the length for an ARRAY and times 1 for a
SCALAR, reduced modulo 2^32; so it is that product itself when the product is below 2^32, as it
is for every SCALAR. -/
theorem C9_size_specifier (m : Machine) (t : CType)
    (hd : t.declarator = Declarator.SCALAR ∨ t.declarator = Declarator.ARRAY)
    (hi : t.indirection = 0) :
    (t.specifier = Specifier.DOUBLE →
        t.size m = some (m.SIZEOF_DOUBLE *
          (if t.declarator = Declarator.ARRAY then t.length else 1) % 4294967296) ∧
        (m.SIZEOF_DOUBLE * (if t.declarator = Declarator.ARRAY then t.length else 1) <
            4294967296 →
          t.size m = some (m.SIZEOF_DOUBLE *
            (if t.declarator = Declarator.ARRAY then t.length else 1))) ∧
        (t.declarator = Declarator.SCALAR → t.size m = some m.SIZEOF_DOUBLE)) ∧
      (t.specifier = Specifier.INT →
        t.size m = some (m.SIZEOF_INT *
          (if t.declarator = Declarator.ARRAY then t.length else 1) % 4294967296) ∧
        (m.SIZEOF_INT * (if t.declarator = Declarator.ARRAY then t.length else 1) <
            4294967296 →
          t.size m = some (m.SIZEOF_INT *
            (if t.declarator = Declarator.ARRAY then t.length else 1))) ∧
        (t.declarator = Declarator.SCALAR → t.size m = some m.SIZEOF_INT)) ∧
      (t.specifier = Specifier.CHAR →
        t.size m = some (m.SIZEOF_CHAR *
          (if t.declarator = Declarator.ARRAY then t.length else 1) % 4294967296) ∧
        (m.SIZEOF_CHAR * (if t.declarator = Declarator.ARRAY then t.length else 1) <
            4294967296 →
          t.size m = some (m.SIZEOF_CHAR *
            (if t.declarator = Declarator.ARRAY then t.length else 1))) ∧
        (t.declarator = Declarator.SCALAR → t.size m = some m.SIZEOF_CHAR)) := by
  obtain ⟨hC, hI, hD, _⟩ := m.int_constants
  have key : ∀ w : Nat, w < 2147483648 →
      t.size m = some (w * (if t.declarator = Declarator.ARRAY then t.length else 1) %
        4294967296) →
      t.size m = some (w * (if t.declarator = Declarator.ARRAY then t.length else 1) %
          4294967296) ∧
        (w * (if t.declarator = Declarator.ARRAY then t.length else 1) < 4294967296 →
          t.size m = some (w * (if t.declarator = Declarator.ARRAY then t.length else 1))) ∧
        (t.declarator = Declarator.SCALAR → t.size m = some w) := by
    intro w hw h1
    refine ⟨h1, fun hlt => ?_, fun hs => ?_⟩
    · rw [h1, Nat.mod_eq_of_lt hlt]
    · rw [h1, if_neg (by rw [hs]; decide), Nat.mul_one, Nat.mod_eq_of_lt (by omega)]
  refine ⟨fun hs => key _ hD ?_, fun hs => key _ hI ?_, fun hs => key _ hC ?_⟩ <;>
    rcases hd with hd | hd <;> simp [CType.size, hd, hi, hs, Nat.mul_comm]

/-- C9 (amended), applied to `double a[3]`: its size is 8 * 3. -/
theorem C9_size_specifier_witness : tDoubleArray.size ia32 = some (8 * 3) :=
  ((C9_size_specifier ia32 tDoubleArray (Or.inr rfl) rfl).1 rfl).2.1 (by decide)

/-- C10: `Type::size` fails (the assertion fires and no size is returned) exactly when the
declarator is FUNCTION or ERROR, and it returns a value for every SCALAR or ARRAY type. -/
theorem C10_size_fails_iff (m : Machine) (t : CType) :
    (t.size m = none ↔
        (t.declarator = Declarator.FUNCTION ∨ t.declarator = Declarator.ERROR)) ∧
      ((t.declarator = Declarator.SCALAR ∨ t.declarator = Declarator.ARRAY) ↔
        ∃ n, t.size m = some n) := by
  obtain ⟨s, i, d, l⟩ := t
  cases d <;> simp [CType.size] <;> split_ifs <;> simp

/-! ## `Type::size`: auxiliary facts -/

theorem size_of_sized (m : Machine) (t : CType)
    (h : t.declarator = Declarator.SCALAR ∨ t.declarator = Declarator.ARRAY) :
    ∃ n, t.size m = some n := by
  obtain ⟨s, i, d, l⟩ := t
  rcases h with h | h <;> simp only at h <;> subst h <;> simp [CType.size] <;> split_ifs <;> simp

/-! ## 32-bit arithmetic -/

theorem wrapInt_eq (x : Int) (h1 : -2147483648 ≤ x) (h2 : x ≤ 2147483647) : wrapInt x = x := by
  unfold wrapInt
  omega

theorem wrapInt_range (x : Int) : -2147483648 ≤ wrapInt x ∧ wrapInt x ≤ 2147483647 := by
  unfold wrapInt
  omega

/-! ## Storage allocation: the store -/

theorem setOffset_same (σ : Offsets) (i : Nat) (o : Int) : setOffset σ i o i = o := by
  simp [setOffset]

theorem setOffset_ne (σ : Offsets) {i j : Nat} (o : Int) (h : j ≠ i) :
    setOffset σ i o j = σ j := by
  simp [setOffset, h]

/-! ## Storage allocation: one step of each loop -/

theorem allocateSymbols_nil (m : Machine) (σ : Offsets) (o : Int) (r : Offsets × Int) :
    allocateSymbols m [] σ o = some r ↔ r = (σ, o) := by
  simp [allocateSymbols, eq_comm]

theorem allocateSymbols_cons_zero (m : Machine) (s : Symbol) (rest : List Symbol) (σ : Offsets)
    (o : Int) (r : Offsets × Int) (hz : σ s.id = 0) :
    allocateSymbols m (s :: rest) σ o = some r ↔
      ∃ n, s.type.size m = some n ∧
        allocateSymbols m rest (setOffset σ s.id (wrapInt (o - n))) (wrapInt (o - n)) =
          some r := by
  simp only [allocateSymbols, hz, if_true]
  cases hn : s.type.size m <;> simp

theorem allocateSymbols_cons_nonzero (m : Machine) (s : Symbol) (rest : List Symbol)
    (σ : Offsets) (o : Int) (hz : σ s.id ≠ 0) :
    allocateSymbols m (s :: rest) σ o = allocateSymbols m rest σ o := by
  simp [allocateSymbols, hz]

theorem allocate_block (m : Machine) (decls : List Symbol) (stmts : List Statement)
    (σ : Offsets) (o : Int) (r : Offsets × Int) :
    Statement.allocate m (Statement.Block decls stmts) σ o = some r ↔
      ∃ σ1 saved, allocateSymbols m decls σ o = some (σ1, saved) ∧
        allocateStmts m stmts saved σ1 saved = some r := by
  simp only [Statement.allocate]
  cases h : allocateSymbols m decls σ o with
  | none => simp
  | some p =>
    obtain ⟨σ1, o1⟩ := p
    constructor
    · intro hr
      exact ⟨σ1, o1, rfl, hr⟩
    · rintro ⟨σ2, o2, heq, hr⟩
      simp only [Option.some.injEq, Prod.mk.injEq] at heq
      obtain ⟨rfl, rfl⟩ := heq
      exact hr

theorem allocate_if_else (m : Machine) (c : Expression) (t e : Statement) (σ : Offsets) (o : Int)
    (r : Offsets × Int) :
    Statement.allocate m (Statement.If c t (some e)) σ o = some r ↔
      ∃ σ1 r1 r2, Statement.allocate m t σ o = some (σ1, r1) ∧
        Statement.allocate m e σ1 o = some (r.1, r2) ∧ r.2 = min r1 r2 := by
  obtain ⟨σ', o'⟩ := r
  simp only [Statement.allocate]
  constructor
  · intro h
    cases h1 : Statement.allocate m t σ o with
    | none => simp [h1] at h
    | some p =>
      obtain ⟨σ1, o1⟩ := p
      simp only [h1] at h
      cases h2 : Statement.allocate m e σ1 o with
      | none => simp [h2] at h
      | some q =>
        obtain ⟨σ2, o2⟩ := q
        simp only [h2, Option.some.injEq, Prod.mk.injEq] at h
        obtain ⟨rfl, rfl⟩ := h
        exact ⟨σ1, o1, o2, rfl, h2, rfl⟩
  · rintro ⟨σ1, r1, r2, h1, h2, h3⟩
    simp only [h1, h2, h3]

theorem allocateStmts_nil (m : Machine) (saved : Int) (σ : Offsets) (o : Int)
    (r : Offsets × Int) :
    allocateStmts m [] saved σ o = some r ↔ r = (σ, o) := by
  simp [allocateStmts, eq_comm]

theorem allocateStmts_cons (m : Machine) (s : Statement) (rest : List Statement) (saved : Int)
    (σ : Offsets) (o : Int) (r : Offsets × Int) :
    allocateStmts m (s :: rest) saved σ o = some r ↔
      ∃ σ1 temp, Statement.allocate m s σ saved = some (σ1, temp) ∧
        allocateStmts m rest saved σ1 (min o temp) = some r := by
  simp only [allocateStmts]
  cases h : Statement.allocate m s σ saved with
  | none => simp
  | some p =>
    obtain ⟨σ1, o1⟩ := p
    constructor
    · intro hr
      exact ⟨σ1, o1, rfl, hr⟩
    · rintro ⟨σ2, o2, heq, hr⟩
      simp only [Option.some.injEq, Prod.mk.injEq] at heq
      obtain ⟨rfl, rfl⟩ := heq
      exact hr

theorem allocate_leaf (m : Machine) (s : Statement) (σ : Offsets) (o : Int)
    (r : Offsets × Int)
    (hs : (∃ l r, s = Statement.Assignment l r) ∨ (∃ e, s = Statement.Expr e) ∨
      s = Statement.Other) :
    Statement.allocate m s σ o = some r ↔ r = (σ, o) := by
  rcases hs with ⟨l, r', rfl⟩ | ⟨e, rfl⟩ | rfl <;> simp [Statement.allocate, eq_comm]

/-! ## Storage allocation: what is written -/

theorem allocateSymbols_frame (m : Machine) (l : List Symbol) :
    ∀ (σ : Offsets) (o : Int) (σ' : Offsets) (o' : Int),
      allocateSymbols m l σ o = some (σ', o') →
      ∀ i, i ∉ l.map Symbol.id → σ' i = σ i := by
  induction l with
  | nil =>
    intro σ o σ' o' h i _
    rw [((Prod.mk.injEq _ _ _ _).mp ((allocateSymbols_nil m σ o _).1 h)).1]
  | cons s rest ih =>
    intro σ o σ' o' h i hi
    simp only [List.map_cons, List.mem_cons, not_or] at hi
    by_cases hz : σ s.id = 0
    · obtain ⟨n, _, hr⟩ := (allocateSymbols_cons_zero m s rest σ o _ hz).1 h
      rw [ih _ _ _ _ hr i hi.2, setOffset_ne _ _ hi.1]
    · rw [allocateSymbols_cons_nonzero m s rest σ o hz] at h
      exact ih _ _ _ _ h i hi.2

theorem allocateSymbols_skip (m : Machine) (l : List Symbol) :
    ∀ (σ : Offsets) (o : Int) (σ' : Offsets) (o' : Int),
      allocateSymbols m l σ o = some (σ', o') →
      ∀ i, σ i ≠ 0 → σ' i = σ i := by
  induction l with
  | nil =>
    intro σ o σ' o' h i _
    rw [((Prod.mk.injEq _ _ _ _).mp ((allocateSymbols_nil m σ o _).1 h)).1]
  | cons s rest ih =>
    intro σ o σ' o' h i hi
    by_cases hz : σ s.id = 0
    · obtain ⟨n, _, hr⟩ := (allocateSymbols_cons_zero m s rest σ o _ hz).1 h
      have hne : i ≠ s.id := fun heq => hi (heq ▸ hz)
      rw [ih _ _ _ _ hr i (by rw [setOffset_ne _ _ hne]; exact hi), setOffset_ne _ _ hne]
    · rw [allocateSymbols_cons_nonzero m s rest σ o hz] at h
      exact ih _ _ _ _ h i hi

theorem allocateSymbols_total (m : Machine) (l : List Symbol)
    (hs : ∀ s ∈ l, s.type.declarator = Declarator.SCALAR ∨ s.type.declarator = Declarator.ARRAY) :
    ∀ (σ : Offsets) (o : Int), ∃ r, allocateSymbols m l σ o = some r := by
  induction l with
  | nil => intro σ o; exact ⟨(σ, o), rfl⟩
  | cons s rest ih =>
    intro σ o
    have ih' := ih (fun x hx => hs x (List.mem_cons_of_mem _ hx))
    by_cases hz : σ s.id = 0
    · obtain ⟨n, hn⟩ := size_of_sized m s.type (hs s (List.mem_cons_self _ _))
      obtain ⟨r, hr⟩ := ih' (setOffset σ s.id (wrapInt (o - n))) (wrapInt (o - n))
      exact ⟨r, (allocateSymbols_cons_zero m s rest σ o r hz).2 ⟨n, hn, hr⟩⟩
    · rw [allocateSymbols_cons_nonzero m s rest σ o hz]
      exact ih' σ o

mutual
theorem allocate_frame (m : Machine) :
    ∀ (s : Statement) (σ : Offsets) (o : Int) (σ' : Offsets) (o' : Int),
      Statement.allocate m s σ o = some (σ', o') → ∀ i, i ∉ s.ids → σ' i = σ i
  | Statement.Block decls stmts, σ, o, σ', o', h, i, hi => by
    simp only [Statement.ids, Statement.symbols, List.map_append, List.mem_append, not_or] at hi
    obtain ⟨σ1, saved, h1, h2⟩ := (allocate_block m decls stmts σ o _).1 h
    rw [allocateStmts_frame m stmts _ _ _ _ _ h2 i hi.2,
      allocateSymbols_frame m decls _ _ _ _ h1 i hi.1]
  | Statement.While _ stmt, σ, o, σ', o', h, i, hi => by
    simp only [Statement.allocate] at h
    exact allocate_frame m stmt _ _ _ _ h i (by simpa [Statement.ids, Statement.symbols] using hi)
  | Statement.For _ stmt, σ, o, σ', o', h, i, hi => by
    simp only [Statement.allocate] at h
    exact allocate_frame m stmt _ _ _ _ h i (by simpa [Statement.ids, Statement.symbols] using hi)
  | Statement.If _ t none, σ, o, σ', o', h, i, hi => by
    simp only [Statement.allocate] at h
    exact allocate_frame m t _ _ _ _ h i (by simpa [Statement.ids, Statement.symbols] using hi)
  | Statement.If c t (some e), σ, o, σ', o', h, i, hi => by
    simp only [Statement.ids, Statement.symbols, List.map_append, List.mem_append, not_or] at hi
    obtain ⟨σ1, r1, r2, h1, h2, _⟩ := (allocate_if_else m c t e σ o _).1 h
    rw [← allocate_frame m t _ _ _ _ h1 i hi.1]
    exact allocate_frame m e _ _ _ _ h2 i hi.2
  | Statement.Assignment l r', σ, o, σ', o', h, i, _ => by
    rw [((Prod.mk.injEq _ _ _ _).mp ((allocate_leaf m _ σ o _ (Or.inl ⟨l, r', rfl⟩)).1 h)).1]
  | Statement.Expr e, σ, o, σ', o', h, i, _ => by
    rw [((Prod.mk.injEq _ _ _ _).mp ((allocate_leaf m _ σ o _ (Or.inr (Or.inl ⟨e, rfl⟩))).1 h)).1]
  | Statement.Other, σ, o, σ', o', h, i, _ => by
    rw [((Prod.mk.injEq _ _ _ _).mp ((allocate_leaf m _ σ o _ (Or.inr (Or.inr rfl))).1 h)).1]
theorem allocateStmts_frame (m : Machine) :
    ∀ (l : List Statement) (saved : Int) (σ : Offsets) (o : Int) (σ' : Offsets) (o' : Int),
      allocateStmts m l saved σ o = some (σ', o') →
      ∀ i, i ∉ (symbolsOfStmts l).map Symbol.id → σ' i = σ i
  | [], saved, σ, o, σ', o', h, i, _ => by
    rw [((Prod.mk.injEq _ _ _ _).mp ((allocateStmts_nil m saved σ o _).1 h)).1]
  | s :: rest, saved, σ, o, σ', o', h, i, hi => by
    simp only [symbolsOfStmts, List.map_append, List.mem_append, not_or] at hi
    obtain ⟨σ1, temp, h1, h2⟩ := (allocateStmts_cons m s rest saved σ o _).1 h
    rw [allocateStmts_frame m rest _ _ _ _ _ h2 i hi.2]
    exact allocate_frame m s _ _ _ _ h1 i hi.1
end

mutual
theorem allocate_skip (m : Machine) :
    ∀ (s : Statement) (σ : Offsets) (o : Int) (σ' : Offsets) (o' : Int),
      Statement.allocate m s σ o = some (σ', o') → ∀ i, σ i ≠ 0 → σ' i = σ i
  | Statement.Block decls stmts, σ, o, σ', o', h, i, hi => by
    obtain ⟨σ1, saved, h1, h2⟩ := (allocate_block m decls stmts σ o _).1 h
    have e1 := allocateSymbols_skip m decls _ _ _ _ h1 i hi
    rw [allocateStmts_skip m stmts _ _ _ _ _ h2 i (by rw [e1]; exact hi), e1]
  | Statement.While _ stmt, σ, o, σ', o', h, i, hi => by
    simp only [Statement.allocate] at h
    exact allocate_skip m stmt _ _ _ _ h i hi
  | Statement.For _ stmt, σ, o, σ', o', h, i, hi => by
    simp only [Statement.allocate] at h
    exact allocate_skip m stmt _ _ _ _ h i hi
  | Statement.If _ t none, σ, o, σ', o', h, i, hi => by
    simp only [Statement.allocate] at h
    exact allocate_skip m t _ _ _ _ h i hi
  | Statement.If c t (some e), σ, o, σ', o', h, i, hi => by
    obtain ⟨σ1, r1, r2, h1, h2, _⟩ := (allocate_if_else m c t e σ o _).1 h
    have e1 := allocate_skip m t _ _ _ _ h1 i hi
    rw [← e1]
    exact allocate_skip m e _ _ _ _ h2 i (by rw [e1]; exact hi)
  | Statement.Assignment l r', σ, o, σ', o', h, i, _ => by
    rw [((Prod.mk.injEq _ _ _ _).mp ((allocate_leaf m _ σ o _ (Or.inl ⟨l, r', rfl⟩)).1 h)).1]
  | Statement.Expr e, σ, o, σ', o', h, i, _ => by
    rw [((Prod.mk.injEq _ _ _ _).mp ((allocate_leaf m _ σ o _ (Or.inr (Or.inl ⟨e, rfl⟩))).1 h)).1]
  | Statement.Other, σ, o, σ', o', h, i, _ => by
    rw [((Prod.mk.injEq _ _ _ _).mp ((allocate_leaf m _ σ o _ (Or.inr (Or.inr rfl))).1 h)).1]
theorem allocateStmts_skip (m : Machine) :
    ∀ (l : List Statement) (saved : Int) (σ : Offsets) (o : Int) (σ' : Offsets) (o' : Int),
      allocateStmts m l saved σ o = some (σ', o') → ∀ i, σ i ≠ 0 → σ' i = σ i
  | [], saved, σ, o, σ', o', h, i, _ => by
    rw [((Prod.mk.injEq _ _ _ _).mp ((allocateStmts_nil m saved σ o _).1 h)).1]
  | s :: rest, saved, σ, o, σ', o', h, i, hi => by
    obtain ⟨σ1, temp, h1, h2⟩ := (allocateStmts_cons m s rest saved σ o _).1 h
    have e1 := allocate_skip m s _ _ _ _ h1 i hi
    rw [allocateStmts_skip m rest _ _ _ _ _ h2 i (by rw [e1]; exact hi)]
    exact e1
end

mutual
theorem allocate_total (m : Machine) :
    ∀ (s : Statement) (σ : Offsets) (o : Int),
      (∀ x ∈ s.symbols,
        x.type.declarator = Declarator.SCALAR ∨ x.type.declarator = Declarator.ARRAY) →
      ∃ r, Statement.allocate m s σ o = some r
  | Statement.Block decls stmts, σ, o, hs => by
    simp only [Statement.symbols, List.mem_append] at hs
    obtain ⟨⟨σ1, saved⟩, h1⟩ :=
      allocateSymbols_total m decls (fun x hx => hs x (Or.inl hx)) σ o
    obtain ⟨r, h2⟩ := allocateStmts_total m stmts saved σ1 saved (fun x hx => hs x (Or.inr hx))
    exact ⟨r, (allocate_block m decls stmts σ o r).2 ⟨σ1, saved, h1, h2⟩⟩
  | Statement.While _ stmt, σ, o, hs => by
    simp only [Statement.allocate]
    exact allocate_total m stmt σ o (by simpa [Statement.symbols] using hs)
  | Statement.For _ stmt, σ, o, hs => by
    simp only [Statement.allocate]
    exact allocate_total m stmt σ o (by simpa [Statement.symbols] using hs)
  | Statement.If _ t none, σ, o, hs => by
    simp only [Statement.allocate]
    exact allocate_total m t σ o (by simpa [Statement.symbols] using hs)
  | Statement.If c t (some e), σ, o, hs => by
    simp only [Statement.symbols, List.mem_append] at hs
    obtain ⟨⟨σ1, r1⟩, h1⟩ := allocate_total m t σ o (fun x hx => hs x (Or.inl hx))
    obtain ⟨⟨σ2, r2⟩, h2⟩ := allocate_total m e σ1 o (fun x hx => hs x (Or.inr hx))
    exact ⟨(σ2, min r1 r2), (allocate_if_else m c t e σ o _).2 ⟨σ1, r1, r2, h1, h2, rfl⟩⟩
  | Statement.Assignment _ _, σ, o, _ => ⟨(σ, o), rfl⟩
  | Statement.Expr _, σ, o, _ => ⟨(σ, o), rfl⟩
  | Statement.Other, σ, o, _ => ⟨(σ, o), rfl⟩
theorem allocateStmts_total (m : Machine) :
    ∀ (l : List Statement) (saved : Int) (σ : Offsets) (o : Int),
      (∀ x ∈ symbolsOfStmts l,
        x.type.declarator = Declarator.SCALAR ∨ x.type.declarator = Declarator.ARRAY) →
      ∃ r, allocateStmts m l saved σ o = some r
  | [], saved, σ, o, _ => ⟨(σ, o), rfl⟩
  | s :: rest, saved, σ, o, hs => by
    simp only [symbolsOfStmts, List.mem_append] at hs
    obtain ⟨⟨σ1, temp⟩, h1⟩ := allocate_total m s σ saved (fun x hx => hs x (Or.inl hx))
    obtain ⟨r, h2⟩ :=
      allocateStmts_total m rest saved σ1 (min o temp) (fun x hx => hs x (Or.inr hx))
    exact ⟨r, (allocateStmts_cons m s rest saved σ o r).2 ⟨σ1, temp, h1, h2⟩⟩
end

/-! ## Storage allocation: slots -/

theorem Slots_le (m : Machine) (σ : Offsets) (l : List Symbol) :
    ∀ (base bottom : Int), Slots m σ base l bottom → bottom ≤ base := by
  induction l with
  | nil => intro base bottom h; exact le_of_eq h
  | cons s rest ih =>
    rintro base bottom ⟨n, _, _, h⟩
    have := ih _ _ h
    omega

theorem Slots_between (m : Machine) (σ : Offsets) (l : List Symbol) :
    ∀ (base bottom : Int), Slots m σ base l bottom →
      ∀ s ∈ l, bottom ≤ σ s.id ∧ σ s.id ≤ base := by
  induction l with
  | nil => intro base bottom _ s hs; exact absurd hs (List.not_mem_nil s)
  | cons x rest ih =>
    rintro base bottom ⟨n, _, hx, h⟩ s hs
    have hle := Slots_le m σ rest _ _ h
    rcases List.mem_cons.1 hs with rfl | hs
    · omega
    · have := ih _ _ h s hs
      omega

theorem Slots_bottom (m : Machine) (σ : Offsets) (l : List Symbol) :
    ∀ (base bottom : Int), Slots m σ base l bottom →
      bottom = base ∨ ∃ s ∈ l, σ s.id = bottom := by
  induction l with
  | nil => intro base bottom h; exact Or.inl h
  | cons x rest ih =>
    rintro base bottom ⟨n, _, hx, h⟩
    rcases ih _ _ h with hb | ⟨s, hs, hb⟩
    · exact Or.inr ⟨x, List.mem_cons_self _ _, by rw [hx, hb]⟩
    · exact Or.inr ⟨s, List.mem_cons_of_mem _ hs, hb⟩

theorem Slots_congr (m : Machine) (σ τ : Offsets) (l : List Symbol) :
    ∀ (base bottom : Int), (∀ s ∈ l, τ s.id = σ s.id) → Slots m σ base l bottom →
      Slots m τ base l bottom := by
  induction l with
  | nil => intro base bottom _ h; exact h
  | cons x rest ih =>
    rintro base bottom hst ⟨n, hn, hx, h⟩
    exact ⟨n, hn, by rw [hst x (List.mem_cons_self _ _), hx],
      ih _ _ (fun s hs => hst s (List.mem_cons_of_mem _ hs)) h⟩

theorem Slots_append (m : Machine) (σ : Offsets) (l1 l2 : List Symbol) :
    ∀ (base middle bottom : Int), Slots m σ base l1 middle → Slots m σ middle l2 bottom →
      Slots m σ base (l1 ++ l2) bottom := by
  induction l1 with
  | nil => intro base middle bottom h1 h2; rw [← (h1 : middle = base)]; exact h2
  | cons x rest ih =>
    rintro base middle bottom ⟨n, hn, hx, h⟩ h2
    exact ⟨n, hn, hx, ih _ _ _ h h2⟩

theorem extent_cons (m : Machine) (s : Symbol) (rest : List Symbol) :
    extent m (s :: rest) = (s.type.size m).getD 0 + extent m rest := by
  simp [extent]

theorem extent_append (m : Machine) (l1 l2 : List Symbol) :
    extent m (l1 ++ l2) = extent m l1 + extent m l2 := by
  simp [extent]

theorem Slots_extent (m : Machine) (σ : Offsets) (l : List Symbol) :
    ∀ (base bottom : Int), Slots m σ base l bottom → bottom = base - extent m l := by
  induction l with
  | nil => intro base bottom h; simpa [extent] using h
  | cons s rest ih =>
    rintro base bottom ⟨n, hn, _, h⟩
    rw [ih _ _ h, extent_cons, hn, Option.getD_some]
    push_cast
    ring

theorem allocateSymbols_slots (m : Machine) (l : List Symbol) :
    ∀ (σ : Offsets) (o : Int) (σ' : Offsets) (o' : Int),
      (∀ s ∈ l, σ s.id = 0) → (l.map Symbol.id).Nodup →
      o ≤ 2147483647 → -2147483648 ≤ o - extent m l →
      allocateSymbols m l σ o = some (σ', o') → Slots m σ' o l o' := by
  induction l with
  | nil =>
    intro σ o σ' o' _ _ _ _ h
    exact ((Prod.mk.injEq _ _ _ _).mp ((allocateSymbols_nil m σ o _).1 h)).2
  | cons s rest ih =>
    intro σ o σ' o' hz hnd hhi hfit h
    rw [List.map_cons, List.nodup_cons] at hnd
    obtain ⟨n, hn, hr⟩ :=
      (allocateSymbols_cons_zero m s rest σ o _ (hz s (List.mem_cons_self _ _))).1 h
    rw [extent_cons, hn, Option.getD_some] at hfit
    push_cast at hfit
    have hw : wrapInt (o - n) = o - n := wrapInt_eq _ (by omega) (by omega)
    rw [hw] at hr
    refine ⟨n, hn, ?_, ih _ _ _ _ (fun x hx => ?_) hnd.2 (by omega) (by omega) hr⟩
    · rw [allocateSymbols_frame m rest _ _ _ _ hr _ hnd.1, setOffset_same]
    · have hne : x.id ≠ s.id := fun heq => hnd.1 (heq ▸ List.mem_map_of_mem _ hx)
      rw [setOffset_ne _ _ hne]
      exact hz x (List.mem_cons_of_mem _ hx)

theorem allocateSymbols_range (m : Machine) (l : List Symbol) :
    ∀ (σ : Offsets) (o : Int) (σ' : Offsets) (o' : Int),
      -2147483648 ≤ o → o ≤ 2147483647 → allocateSymbols m l σ o = some (σ', o') →
      -2147483648 ≤ o' ∧ o' ≤ 2147483647 := by
  induction l with
  | nil =>
    intro σ o σ' o' h1 h2 h
    rw [((Prod.mk.injEq _ _ _ _).mp ((allocateSymbols_nil m σ o _).1 h)).2]
    exact ⟨h1, h2⟩
  | cons s rest ih =>
    intro σ o σ' o' h1 h2 h
    by_cases hz : σ s.id = 0
    · obtain ⟨n, _, hr⟩ := (allocateSymbols_cons_zero m s rest σ o _ hz).1 h
      exact ih _ _ _ _ (wrapInt_range _).1 (wrapInt_range _).2 hr
    · rw [allocateSymbols_cons_nonzero m s rest σ o hz] at h
      exact ih _ _ _ _ h1 h2 h

mutual
theorem allocate_range (m : Machine) :
    ∀ (s : Statement) (σ : Offsets) (o : Int) (σ' : Offsets) (o' : Int),
      -2147483648 ≤ o → o ≤ 2147483647 → Statement.allocate m s σ o = some (σ', o') →
      -2147483648 ≤ o' ∧ o' ≤ 2147483647
  | Statement.Block decls stmts, σ, o, σ', o', h1, h2, h => by
    obtain ⟨σ1, saved, k1, k2⟩ := (allocate_block m decls stmts σ o _).1 h
    obtain ⟨r1, r2⟩ := allocateSymbols_range m decls _ _ _ _ h1 h2 k1
    exact allocateStmts_range m stmts _ _ _ _ _ r1 r2 r1 r2 k2
  | Statement.While _ stmt, σ, o, σ', o', h1, h2, h => by
    simp only [Statement.allocate] at h
    exact allocate_range m stmt _ _ _ _ h1 h2 h
  | Statement.For _ stmt, σ, o, σ', o', h1, h2, h => by
    simp only [Statement.allocate] at h
    exact allocate_range m stmt _ _ _ _ h1 h2 h
  | Statement.If _ t none, σ, o, σ', o', h1, h2, h => by
    simp only [Statement.allocate] at h
    exact allocate_range m t _ _ _ _ h1 h2 h
  | Statement.If c t (some e), σ, o, σ', o', h1, h2, h => by
    obtain ⟨σ1, r1, r2, k1, k2, k3⟩ := (allocate_if_else m c t e σ o _).1 h
    dsimp only at k2 k3
    have a := allocate_range m t _ _ _ _ h1 h2 k1
    have b := allocate_range m e _ _ _ _ h1 h2 k2
    rw [k3]
    exact ⟨le_min a.1 b.1, le_trans (min_le_left _ _) a.2⟩
  | Statement.Assignment l r, σ, o, σ', o', h1, h2, h => by
    rw [((Prod.mk.injEq _ _ _ _).mp ((allocate_leaf m _ σ o _ (Or.inl ⟨l, r, rfl⟩)).1 h)).2]
    exact ⟨h1, h2⟩
  | Statement.Expr e, σ, o, σ', o', h1, h2, h => by
    rw [((Prod.mk.injEq _ _ _ _).mp ((allocate_leaf m _ σ o _ (Or.inr (Or.inl ⟨e, rfl⟩))).1 h)).2]
    exact ⟨h1, h2⟩
  | Statement.Other, σ, o, σ', o', h1, h2, h => by
    rw [((Prod.mk.injEq _ _ _ _).mp ((allocate_leaf m _ σ o _ (Or.inr (Or.inr rfl))).1 h)).2]
    exact ⟨h1, h2⟩
theorem allocateStmts_range (m : Machine) :
    ∀ (l : List Statement) (saved : Int) (σ : Offsets) (acc : Int) (σ' : Offsets) (o' : Int),
      -2147483648 ≤ saved → saved ≤ 2147483647 → -2147483648 ≤ acc → acc ≤ 2147483647 →
      allocateStmts m l saved σ acc = some (σ', o') → -2147483648 ≤ o' ∧ o' ≤ 2147483647
  | [], saved, σ, acc, σ', o', _, _, h3, h4, h => by
    rw [((Prod.mk.injEq _ _ _ _).mp ((allocateStmts_nil m saved σ acc _).1 h)).2]
    exact ⟨h3, h4⟩
  | s :: rest, saved, σ, acc, σ', o', h1, h2, h3, h4, h => by
    obtain ⟨σ1, temp, k1, k2⟩ := (allocateStmts_cons m s rest saved σ acc _).1 h
    have a := allocate_range m s _ _ _ _ h1 h2 k1
    exact allocateStmts_range m rest _ _ _ _ _ h1 h2 (le_min h3 a.1)
      (le_trans (min_le_left _ _) h4) k2
end

/-! ## Storage allocation: the symbols in scope together -/

mutual
theorem statement_scopes_subset :
    ∀ (s : Statement) (c : List Symbol), c ∈ s.scopes → ∀ x ∈ c, x ∈ s.symbols
  | Statement.Block decls stmts, c, hc, x, hx => by
    simp only [Statement.scopes, List.mem_cons, List.mem_map] at hc
    simp only [Statement.symbols, List.mem_append]
    rcases hc with rfl | ⟨c', hc', rfl⟩
    · exact Or.inl hx
    · rcases List.mem_append.1 hx with hx | hx
      · exact Or.inl hx
      · exact Or.inr (scopesOfStmts_subset stmts c' hc' x hx)
  | Statement.While _ stmt, c, hc, x, hx => by
    simp only [Statement.scopes] at hc
    simp only [Statement.symbols]
    exact statement_scopes_subset stmt c hc x hx
  | Statement.For _ stmt, c, hc, x, hx => by
    simp only [Statement.scopes] at hc
    simp only [Statement.symbols]
    exact statement_scopes_subset stmt c hc x hx
  | Statement.If _ t none, c, hc, x, hx => by
    simp only [Statement.scopes] at hc
    simp only [Statement.symbols]
    exact statement_scopes_subset t c hc x hx
  | Statement.If _ t (some e), c, hc, x, hx => by
    simp only [Statement.scopes, List.mem_append] at hc
    simp only [Statement.symbols, List.mem_append]
    rcases hc with hc | hc
    · exact Or.inl (statement_scopes_subset t c hc x hx)
    · exact Or.inr (statement_scopes_subset e c hc x hx)
  | Statement.Assignment _ _, c, hc, x, _ => by simp [Statement.scopes] at hc
  | Statement.Expr _, c, hc, x, _ => by simp [Statement.scopes] at hc
  | Statement.Other, c, hc, x, _ => by simp [Statement.scopes] at hc
theorem scopesOfStmts_subset :
    ∀ (l : List Statement) (c : List Symbol), c ∈ scopesOfStmts l →
      ∀ x ∈ c, x ∈ symbolsOfStmts l
  | [], c, hc, x, _ => by simp [scopesOfStmts] at hc
  | s :: rest, c, hc, x, hx => by
    simp only [scopesOfStmts, List.mem_append] at hc
    simp only [symbolsOfStmts, List.mem_append]
    rcases hc with hc | hc
    · exact Or.inl (statement_scopes_subset s c hc x hx)
    · exact Or.inr (scopesOfStmts_subset rest c hc x hx)
end

mutual
theorem statement_mem_scopes :
    ∀ (s : Statement) (x : Symbol), x ∈ s.symbols → ∃ c ∈ s.scopes, x ∈ c
  | Statement.Block decls stmts, x, hx => by
    simp only [Statement.symbols, List.mem_append] at hx
    simp only [Statement.scopes, List.mem_cons, List.mem_map]
    rcases hx with hx | hx
    · exact ⟨decls, Or.inl rfl, hx⟩
    · obtain ⟨c, hc, hxc⟩ := stmts_mem_scopes stmts x hx
      exact ⟨decls ++ c, Or.inr ⟨c, hc, rfl⟩, List.mem_append_right _ hxc⟩
  | Statement.While _ stmt, x, hx => by
    simp only [Statement.symbols] at hx
    simp only [Statement.scopes]
    exact statement_mem_scopes stmt x hx
  | Statement.For _ stmt, x, hx => by
    simp only [Statement.symbols] at hx
    simp only [Statement.scopes]
    exact statement_mem_scopes stmt x hx
  | Statement.If _ t none, x, hx => by
    simp only [Statement.symbols] at hx
    simp only [Statement.scopes]
    exact statement_mem_scopes t x hx
  | Statement.If _ t (some e), x, hx => by
    simp only [Statement.symbols, List.mem_append] at hx
    simp only [Statement.scopes, List.mem_append]
    rcases hx with hx | hx
    · obtain ⟨c, hc, hxc⟩ := statement_mem_scopes t x hx
      exact ⟨c, Or.inl hc, hxc⟩
    · obtain ⟨c, hc, hxc⟩ := statement_mem_scopes e x hx
      exact ⟨c, Or.inr hc, hxc⟩
  | Statement.Assignment _ _, x, hx => by simp [Statement.symbols] at hx
  | Statement.Expr _, x, hx => by simp [Statement.symbols] at hx
  | Statement.Other, x, hx => by simp [Statement.symbols] at hx
theorem stmts_mem_scopes :
    ∀ (l : List Statement) (x : Symbol), x ∈ symbolsOfStmts l → ∃ c ∈ scopesOfStmts l, x ∈ c
  | [], x, hx => by simp [symbolsOfStmts] at hx
  | s :: rest, x, hx => by
    simp only [symbolsOfStmts, List.mem_append] at hx
    simp only [scopesOfStmts, List.mem_append]
    rcases hx with hx | hx
    · obtain ⟨c, hc, hxc⟩ := statement_mem_scopes s x hx
      exact ⟨c, Or.inl hc, hxc⟩
    · obtain ⟨c, hc, hxc⟩ := stmts_mem_scopes rest x hx
      exact ⟨c, Or.inr hc, hxc⟩
end

mutual
theorem allocate_scopes (m : Machine) :
    ∀ (s : Statement) (σ : Offsets) (o : Int) (σ' : Offsets) (o' : Int),
      (∀ x ∈ s.symbols, σ x.id = 0) → s.ids.Nodup →
      o ≤ 2147483647 → (∀ c ∈ s.scopes, -2147483648 ≤ o - extent m c) →
      Statement.allocate m s σ o = some (σ', o') →
      ∀ c ∈ s.scopes, ∃ bottom, Slots m σ' o c bottom
  | Statement.Block decls stmts, σ, o, σ', o', hz, hnd, hhi, hfit, h, c, hc => by
    simp only [Statement.ids, Statement.symbols, List.map_append, List.nodup_append] at hnd
    simp only [Statement.symbols, List.mem_append] at hz
    simp only [Statement.scopes, List.mem_cons, List.mem_map] at hc
    obtain ⟨hnd1, hnd2, hdis⟩ := hnd
    obtain ⟨σ1, saved, h1, h2⟩ := (allocate_block m decls stmts σ o _).1 h
    have hs := allocateSymbols_slots m decls σ o σ1 saved (fun x hx => hz x (Or.inl hx)) hnd1
      hhi (hfit decls (by simp [Statement.scopes])) h1
    have hsaved := Slots_extent m σ1 decls _ _ hs
    have hfit1 : ∀ c ∈ scopesOfStmts stmts, -2147483648 ≤ saved - extent m c := fun c1 hc1 => by
      have := hfit (decls ++ c1) (by
        simp only [Statement.scopes, List.mem_cons, List.mem_map]
        exact Or.inr ⟨c1, hc1, rfl⟩)
      rw [extent_append] at this
      push_cast at this
      omega
    have hz1 : ∀ x ∈ symbolsOfStmts stmts, σ1 x.id = 0 := fun x hx => by
      rw [allocateSymbols_frame m decls _ _ _ _ h1 x.id
        (fun hmem => hdis hmem (List.mem_map_of_mem _ hx))]
      exact hz x (Or.inr hx)
    have hs' : Slots m σ' o decls saved := Slots_congr m σ1 σ' decls _ _ (fun x hx =>
      allocateStmts_frame m stmts _ _ _ _ _ h2 x.id
        (fun hmem => hdis (List.mem_map_of_mem _ hx) hmem)) hs
    rcases hc with rfl | ⟨c', hc', rfl⟩
    · exact ⟨saved, hs'⟩
    · obtain ⟨bottom, hb⟩ := allocateStmts_scopes m stmts saved σ1 saved σ' o' hz1 hnd2
        (by omega) hfit1 h2 c' hc'
      exact ⟨bottom, Slots_append m σ' decls c' _ _ _ hs' hb⟩
  | Statement.While _ stmt, σ, o, σ', o', hz, hnd, hhi, hfit, h, c, hc => by
    simp only [Statement.allocate] at h
    simp only [Statement.symbols] at hz
    simp only [Statement.scopes] at hc hfit
    exact allocate_scopes m stmt σ o σ' o' hz
      (by simpa [Statement.ids, Statement.symbols] using hnd) hhi hfit h c hc
  | Statement.For _ stmt, σ, o, σ', o', hz, hnd, hhi, hfit, h, c, hc => by
    simp only [Statement.allocate] at h
    simp only [Statement.symbols] at hz
    simp only [Statement.scopes] at hc hfit
    exact allocate_scopes m stmt σ o σ' o' hz
      (by simpa [Statement.ids, Statement.symbols] using hnd) hhi hfit h c hc
  | Statement.If _ t none, σ, o, σ', o', hz, hnd, hhi, hfit, h, c, hc => by
    simp only [Statement.allocate] at h
    simp only [Statement.symbols] at hz
    simp only [Statement.scopes] at hc hfit
    exact allocate_scopes m t σ o σ' o' hz
      (by simpa [Statement.ids, Statement.symbols] using hnd) hhi hfit h c hc
  | Statement.If cnd t (some e), σ, o, σ', o', hz, hnd, hhi, hfit, h, c, hc => by
    simp only [Statement.ids, Statement.symbols, List.map_append, List.nodup_append] at hnd
    simp only [Statement.symbols, List.mem_append] at hz
    simp only [Statement.scopes, List.mem_append] at hc hfit
    obtain ⟨hnd1, hnd2, hdis⟩ := hnd
    obtain ⟨σ1, r1, r2, h1, h2, _⟩ := (allocate_if_else m cnd t e σ o _).1 h
    dsimp only at h2
    rcases hc with hc | hc
    · obtain ⟨bottom, hb⟩ := allocate_scopes m t σ o σ1 r1 (fun x hx => hz x (Or.inl hx)) hnd1
        hhi (fun c1 hc1 => hfit c1 (Or.inl hc1)) h1 c hc
      exact ⟨bottom, Slots_congr m σ1 σ' c _ _ (fun x hx =>
        allocate_frame m e _ _ _ _ h2 x.id (fun hmem =>
          hdis (List.mem_map_of_mem _ (statement_scopes_subset t c hc x hx)) hmem)) hb⟩
    · have hz1 : ∀ x ∈ e.symbols, σ1 x.id = 0 := fun x hx => by
        rw [allocate_frame m t _ _ _ _ h1 x.id
          (fun hmem => hdis hmem (List.mem_map_of_mem _ hx))]
        exact hz x (Or.inr hx)
      exact allocate_scopes m e σ1 o σ' r2 hz1 hnd2 hhi (fun c1 hc1 => hfit c1 (Or.inr hc1)) h2
        c hc
  | Statement.Assignment _ _, σ, o, σ', o', _, _, _, _, _, c, hc => by
    simp [Statement.scopes] at hc
  | Statement.Expr _, σ, o, σ', o', _, _, _, _, _, c, hc => by simp [Statement.scopes] at hc
  | Statement.Other, σ, o, σ', o', _, _, _, _, _, c, hc => by simp [Statement.scopes] at hc
theorem allocateStmts_scopes (m : Machine) :
    ∀ (l : List Statement) (saved : Int) (σ : Offsets) (acc : Int) (σ' : Offsets) (o' : Int),
      (∀ x ∈ symbolsOfStmts l, σ x.id = 0) → ((symbolsOfStmts l).map Symbol.id).Nodup →
      saved ≤ 2147483647 → (∀ c ∈ scopesOfStmts l, -2147483648 ≤ saved - extent m c) →
      allocateStmts m l saved σ acc = some (σ', o') →
      ∀ c ∈ scopesOfStmts l, ∃ bottom, Slots m σ' saved c bottom
  | [], saved, σ, acc, σ', o', _, _, _, _, _, c, hc => by simp [scopesOfStmts] at hc
  | s :: rest, saved, σ, acc, σ', o', hz, hnd, hhi, hfit, h, c, hc => by
    simp only [symbolsOfStmts, List.map_append, List.nodup_append] at hnd
    simp only [symbolsOfStmts, List.mem_append] at hz
    simp only [scopesOfStmts, List.mem_append] at hc hfit
    obtain ⟨hnd1, hnd2, hdis⟩ := hnd
    obtain ⟨σ1, temp, h1, h2⟩ := (allocateStmts_cons m s rest saved σ acc _).1 h
    rcases hc with hc | hc
    · obtain ⟨bottom, hb⟩ := allocate_scopes m s σ saved σ1 temp
        (fun x hx => hz x (Or.inl hx)) hnd1 hhi (fun c1 hc1 => hfit c1 (Or.inl hc1)) h1 c hc
      exact ⟨bottom, Slots_congr m σ1 σ' c _ _ (fun x hx =>
        allocateStmts_frame m rest _ _ _ _ _ h2 x.id (fun hmem =>
          hdis (List.mem_map_of_mem _ (statement_scopes_subset s c hc x hx)) hmem)) hb⟩
    · have hz1 : ∀ x ∈ symbolsOfStmts rest, σ1 x.id = 0 := fun x hx => by
        rw [allocate_frame m s _ _ _ _ h1 x.id
          (fun hmem => hdis hmem (List.mem_map_of_mem _ hx))]
        exact hz x (Or.inr hx)
      exact allocateStmts_scopes m rest saved σ1 (min acc temp) σ' o' hz1 hnd2 hhi
        (fun c1 hc1 => hfit c1 (Or.inr hc1)) h2 c hc
end

/-! ## Storage allocation: the offset left is the deepest one -/

mutual
theorem allocate_min (m : Machine) :
    ∀ (s : Statement) (σ : Offsets) (o : Int) (σ' : Offsets) (o' : Int),
      (∀ x ∈ s.symbols, σ x.id = 0) → s.ids.Nodup →
      o ≤ 2147483647 → (∀ c ∈ s.scopes, -2147483648 ≤ o - extent m c) →
      Statement.allocate m s σ o = some (σ', o') →
      o' ≤ o ∧ (∀ x ∈ s.symbols, o' ≤ σ' x.id) ∧ (o' = o ∨ ∃ x ∈ s.symbols, σ' x.id = o')
  | Statement.Block decls stmts, σ, o, σ', o', hz, hnd, hhi, hfit, h => by
    simp only [Statement.ids, Statement.symbols, List.map_append, List.nodup_append] at hnd
    simp only [Statement.symbols, List.mem_append] at hz ⊢
    obtain ⟨hnd1, hnd2, hdis⟩ := hnd
    obtain ⟨σ1, saved, h1, h2⟩ := (allocate_block m decls stmts σ o _).1 h
    have hs := allocateSymbols_slots m decls σ o σ1 saved (fun x hx => hz x (Or.inl hx)) hnd1
      hhi (hfit decls (by simp [Statement.scopes])) h1
    have hsaved := Slots_extent m σ1 decls _ _ hs
    have hfit1 : ∀ c ∈ scopesOfStmts stmts, -2147483648 ≤ saved - extent m c := fun c1 hc1 => by
      have := hfit (decls ++ c1) (by
        simp only [Statement.scopes, List.mem_cons, List.mem_map]
        exact Or.inr ⟨c1, hc1, rfl⟩)
      rw [extent_append] at this
      push_cast at this
      omega
    have hz1 : ∀ x ∈ symbolsOfStmts stmts, σ1 x.id = 0 := fun x hx => by
      rw [allocateSymbols_frame m decls _ _ _ _ h1 x.id
        (fun hmem => hdis hmem (List.mem_map_of_mem _ hx))]
      exact hz x (Or.inr hx)
    obtain ⟨a1, a2, a3⟩ := allocateStmts_min m stmts saved σ1 saved σ' o' hz1 hnd2 le_rfl
      (by omega) hfit1 h2
    have hkeep : ∀ x ∈ decls, σ' x.id = σ1 x.id := fun x hx =>
      allocateStmts_frame m stmts _ _ _ _ _ h2 x.id
        (fun hmem => hdis (List.mem_map_of_mem _ hx) hmem)
    have hle := Slots_le m σ1 decls _ _ hs
    refine ⟨le_trans a1 hle, fun x hx => ?_, ?_⟩
    · rcases hx with hx | hx
      · rw [hkeep x hx]
        exact le_trans a1 (Slots_between m σ1 decls _ _ hs x hx).1
      · exact a2 x hx
    · rcases a3 with a3 | ⟨x, hx, a3⟩
      · rcases Slots_bottom m σ1 decls _ _ hs with hb | ⟨x, hx, hb⟩
        · exact Or.inl (a3.trans hb)
        · exact Or.inr ⟨x, Or.inl hx, by rw [hkeep x hx, hb, a3]⟩
      · exact Or.inr ⟨x, Or.inr hx, a3⟩
  | Statement.While _ stmt, σ, o, σ', o', hz, hnd, hhi, hfit, h => by
    simp only [Statement.allocate] at h
    simp only [Statement.symbols] at hz ⊢
    simp only [Statement.scopes] at hfit
    exact allocate_min m stmt σ o σ' o' hz
      (by simpa [Statement.ids, Statement.symbols] using hnd) hhi hfit h
  | Statement.For _ stmt, σ, o, σ', o', hz, hnd, hhi, hfit, h => by
    simp only [Statement.allocate] at h
    simp only [Statement.symbols] at hz ⊢
    simp only [Statement.scopes] at hfit
    exact allocate_min m stmt σ o σ' o' hz
      (by simpa [Statement.ids, Statement.symbols] using hnd) hhi hfit h
  | Statement.If _ t none, σ, o, σ', o', hz, hnd, hhi, hfit, h => by
    simp only [Statement.allocate] at h
    simp only [Statement.symbols] at hz ⊢
    simp only [Statement.scopes] at hfit
    exact allocate_min m t σ o σ' o' hz
      (by simpa [Statement.ids, Statement.symbols] using hnd) hhi hfit h
  | Statement.If c t (some e), σ, o, σ', o', hz, hnd, hhi, hfit, h => by
    simp only [Statement.ids, Statement.symbols, List.map_append, List.nodup_append] at hnd
    simp only [Statement.symbols, List.mem_append] at hz ⊢
    simp only [Statement.scopes, List.mem_append] at hfit
    obtain ⟨hnd1, hnd2, hdis⟩ := hnd
    obtain ⟨σ1, r1, r2, h1, h2, h3⟩ := (allocate_if_else m c t e σ o _).1 h
    dsimp only at h2 h3
    obtain ⟨a1, a2, a3⟩ := allocate_min m t σ o σ1 r1 (fun x hx => hz x (Or.inl hx)) hnd1
      hhi (fun c1 hc1 => hfit c1 (Or.inl hc1)) h1
    have hz1 : ∀ x ∈ e.symbols, σ1 x.id = 0 := fun x hx => by
      rw [allocate_frame m t _ _ _ _ h1 x.id (fun hmem => hdis hmem (List.mem_map_of_mem _ hx))]
      exact hz x (Or.inr hx)
    obtain ⟨b1, b2, b3⟩ := allocate_min m e σ1 o σ' r2 hz1 hnd2
      hhi (fun c1 hc1 => hfit c1 (Or.inr hc1)) h2
    have hkeep : ∀ x ∈ t.symbols, σ' x.id = σ1 x.id := fun x hx =>
      allocate_frame m e _ _ _ _ h2 x.id (fun hmem => hdis (List.mem_map_of_mem _ hx) hmem)
    subst h3
    refine ⟨le_trans (min_le_left _ _) a1, fun x hx => ?_, ?_⟩
    · rcases hx with hx | hx
      · rw [hkeep x hx]
        exact le_trans (min_le_left _ _) (a2 x hx)
      · exact le_trans (min_le_right _ _) (b2 x hx)
    · rcases le_total r1 r2 with hle | hle
      · rw [min_eq_left hle]
        rcases a3 with a3 | ⟨x, hx, a3⟩
        · exact Or.inl a3
        · exact Or.inr ⟨x, Or.inl hx, by rw [hkeep x hx, a3]⟩
      · rw [min_eq_right hle]
        rcases b3 with b3 | ⟨x, hx, b3⟩
        · exact Or.inl b3
        · exact Or.inr ⟨x, Or.inr hx, b3⟩
  | Statement.Assignment l r, σ, o, σ', o', _, _, _, _, h => by
    have := (Prod.mk.injEq _ _ _ _).mp ((allocate_leaf m _ σ o _ (Or.inl ⟨l, r, rfl⟩)).1 h)
    simp [Statement.symbols, this.2]
  | Statement.Expr e, σ, o, σ', o', _, _, _, _, h => by
    have := (Prod.mk.injEq _ _ _ _).mp ((allocate_leaf m _ σ o _ (Or.inr (Or.inl ⟨e, rfl⟩))).1 h)
    simp [Statement.symbols, this.2]
  | Statement.Other, σ, o, σ', o', _, _, _, _, h => by
    have := (Prod.mk.injEq _ _ _ _).mp ((allocate_leaf m _ σ o _ (Or.inr (Or.inr rfl))).1 h)
    simp [Statement.symbols, this.2]
theorem allocateStmts_min (m : Machine) :
    ∀ (l : List Statement) (saved : Int) (σ : Offsets) (acc : Int) (σ' : Offsets) (o' : Int),
      (∀ x ∈ symbolsOfStmts l, σ x.id = 0) → ((symbolsOfStmts l).map Symbol.id).Nodup →
      acc ≤ saved →
      saved ≤ 2147483647 → (∀ c ∈ scopesOfStmts l, -2147483648 ≤ saved - extent m c) →
      allocateStmts m l saved σ acc = some (σ', o') →
      o' ≤ acc ∧ (∀ x ∈ symbolsOfStmts l, o' ≤ σ' x.id) ∧
        (o' = acc ∨ ∃ x ∈ symbolsOfStmts l, σ' x.id = o')
  | [], saved, σ, acc, σ', o', _, _, _, _, _, h => by
    have := (Prod.mk.injEq _ _ _ _).mp ((allocateStmts_nil m saved σ acc _).1 h)
    simp [symbolsOfStmts, this.2]
  | s :: rest, saved, σ, acc, σ', o', hz, hnd, hacc, hhi, hfit, h => by
    simp only [symbolsOfStmts, List.map_append, List.nodup_append] at hnd
    simp only [symbolsOfStmts, List.mem_append] at hz ⊢
    simp only [scopesOfStmts, List.mem_append] at hfit
    obtain ⟨hnd1, hnd2, hdis⟩ := hnd
    obtain ⟨σ1, temp, h1, h2⟩ := (allocateStmts_cons m s rest saved σ acc _).1 h
    obtain ⟨a1, a2, a3⟩ :=
      allocate_min m s σ saved σ1 temp (fun x hx => hz x (Or.inl hx)) hnd1
        hhi (fun c1 hc1 => hfit c1 (Or.inl hc1)) h1
    have hz1 : ∀ x ∈ symbolsOfStmts rest, σ1 x.id = 0 := fun x hx => by
      rw [allocate_frame m s _ _ _ _ h1 x.id (fun hmem => hdis hmem (List.mem_map_of_mem _ hx))]
      exact hz x (Or.inr hx)
    obtain ⟨b1, b2, b3⟩ :=
      allocateStmts_min m rest saved σ1 (min acc temp) σ' o' hz1 hnd2
        (le_trans (min_le_left _ _) hacc) hhi (fun c1 hc1 => hfit c1 (Or.inr hc1)) h2
    have hkeep : ∀ x ∈ s.symbols, σ' x.id = σ1 x.id := fun x hx =>
      allocateStmts_frame m rest _ _ _ _ _ h2 x.id
        (fun hmem => hdis (List.mem_map_of_mem _ hx) hmem)
    refine ⟨le_trans b1 (min_le_left _ _), fun x hx => ?_, ?_⟩
    · rcases hx with hx | hx
      · rw [hkeep x hx]
        exact le_trans b1 (le_trans (min_le_right _ _) (a2 x hx))
      · exact b2 x hx
    · rcases b3 with b3 | ⟨x, hx, b3⟩
      · rcases le_total acc temp with hle | hle
        · exact Or.inl (b3.trans (min_eq_left hle))
        · rw [min_eq_right hle] at b3
          rcases a3 with a3 | ⟨x, hx, a3⟩
          · exact Or.inl (le_antisymm (by omega) (by omega))
          · exact Or.inr ⟨x, Or.inl hx, by rw [hkeep x hx, a3, b3]⟩
      · exact Or.inr ⟨x, Or.inr hx, b3⟩
end

theorem minOffset_eq (l : List Int) :
    ∀ (o o' : Int), o' ≤ o → (∀ v ∈ l, o' ≤ v) → (o' = o ∨ o' ∈ l) → minOffset o l = o' := by
  induction l with
  | nil =>
    intro o o' _ _ h
    rcases h with h | h
    · exact h.symm
    · exact absurd h (List.not_mem_nil _)
  | cons v rest ih =>
    intro o o' h1 h2 h3
    have hv := h2 v (List.mem_cons_self _ _)
    refine ih (min o v) o' (le_min h1 hv) (fun w hw => h2 w (List.mem_cons_of_mem _ hw)) ?_
    rcases h3 with h3 | h3
    · exact Or.inl (by rw [h3, min_eq_left (h3 ▸ hv)])
    · rcases List.mem_cons.1 h3 with h3 | h3
      · exact Or.inl (by rw [h3, min_eq_right (h3 ▸ h1)])
      · exact Or.inr h3

theorem allocate_deepest_chain (m : Machine) (s : Statement) (σ : Offsets) (o : Int)
    (σ' : Offsets) (o' : Int)
    (hz : ∀ x ∈ s.symbols, σ x.id = 0) (hnd : s.ids.Nodup)
    (hhi : o ≤ 2147483647) (hfit : ∀ c ∈ s.scopes, -2147483648 ≤ o - extent m c)
    (h : Statement.allocate m s σ o = some (σ', o')) :
    o' = minOffset o (s.scopes.map (fun c => o - extent m c)) := by
  obtain ⟨h1, h2, h3⟩ := allocate_min m s σ o σ' o' hz hnd hhi hfit h
  have hsc := allocate_scopes m s σ o σ' o' hz hnd hhi hfit h
  refine (minOffset_eq _ o o' h1 ?_ ?_).symm
  · intro v hv
    obtain ⟨c, hc, rfl⟩ := List.mem_map.1 hv
    obtain ⟨bottom, hb⟩ := hsc c hc
    rw [← Slots_extent m σ' c _ _ hb]
    rcases Slots_bottom m σ' c _ _ hb with hbo | ⟨x, hx, hbo⟩
    · rw [hbo]
      exact h1
    · rw [← hbo]
      exact h2 x (statement_scopes_subset s c hc x hx)
  · rcases h3 with h3 | ⟨x, hx, h3⟩
    · exact Or.inl h3
    · obtain ⟨c, hc, hxc⟩ := statement_mem_scopes s x hx
      obtain ⟨bottom, hb⟩ := hsc c hc
      refine Or.inr (List.mem_map.2 ⟨c, hc, ?_⟩)
      have hbx := (Slots_between m σ' c _ _ hb x hxc).1
      have hle : o' ≤ bottom := by
        rcases Slots_bottom m σ' c _ _ hb with hbo | ⟨y, hy, hbo⟩
        · rw [hbo]
          exact h1
        · rw [← hbo]
          exact h2 y (statement_scopes_subset s c hc y hy)
      rw [← Slots_extent m σ' c _ _ hb]
      omega

/-- C1 fails as stated: for the block `{ char big[3000000000]; int x; }` and the starting offset
0, `allocate` puts `big` at 1294967296 (0 - 3000000000 modulo 2^32) and `x` at 1294967292 and
leaves the offset 1294967292, while the minimum of 0 and of the two offsets is 0. -/
theorem C1_allocate_deepest_counterexample :
    bigBlock.symbols.map Symbol.name = ["big", "x"] ∧
      (Statement.allocate ia32 bigBlock unallocated 0).map
          (fun r => (bigBlock.symbols.map (fun x => r.1 x.id), r.2)) =
        some ([1294967296, 1294967292], 1294967292) ∧
      minOffset 0 [1294967296, 1294967292] = 0 := by
  decide

/-- C1 (amended): for a statement whose declared symbols are distinct objects, all with offset 0
on entry, and a starting offset `o` of type `int` from which no scope chain of the statement (the
declarations of a block and of the blocks that enclose it) reaches below -2^31, the offset that
`allocate` leaves is the minimum of `o` and of the offsets given to the symbols declared anywhere
inside the statement; the symbols of every scope chain lie in consecutive slots from `o`
downwards, so that this minimum is the minimum over the scope chains of `o` minus the sum of the
sizes of the chain, not a sum over sibling statements or branches; and `allocate` does return
when every declared symbol has a SCALAR or ARRAY type. -/
theorem C1_allocate_deepest (m : Machine) (s : Statement) (σ : Offsets) (o : Int)
    (hz : ∀ x ∈ s.symbols, σ x.id = 0) (hnd : s.ids.Nodup)
    (hhi : o ≤ 2147483647) (hfit : ∀ c ∈ s.scopes, -2147483648 ≤ o - extent m c) :
    (∀ σ' o', Statement.allocate m s σ o = some (σ', o') →
        o' = minOffset o (s.symbols.map (fun x => σ' x.id)) ∧
          (∀ c ∈ s.scopes, ∃ bottom, Slots m σ' o c bottom) ∧
          o' = minOffset o (s.scopes.map (fun c => o - extent m c))) ∧
      ((∀ x ∈ s.symbols,
          x.type.declarator = Declarator.SCALAR ∨ x.type.declarator = Declarator.ARRAY) →
        ∃ σ' o', Statement.allocate m s σ o = some (σ', o')) := by
  refine ⟨fun σ' o' h => ⟨?_, allocate_scopes m s σ o σ' o' hz hnd hhi hfit h,
    allocate_deepest_chain m s σ o σ' o' hz hnd hhi hfit h⟩, fun hs => ?_⟩
  · obtain ⟨h1, h2, h3⟩ := allocate_min m s σ o σ' o' hz hnd hhi hfit h
    refine (minOffset_eq _ o o' h1 ?_ ?_).symm
    · intro v hv
      obtain ⟨x, hx, rfl⟩ := List.mem_map.1 hv
      exact h2 x hx
    · rcases h3 with h3 | ⟨x, hx, h3⟩
      · exact Or.inl h3
      · exact Or.inr (List.mem_map.2 ⟨x, hx, h3⟩)
  · obtain ⟨⟨σ', o'⟩, h⟩ := allocate_total m s σ o hs
    exact ⟨σ', o', h⟩

/-- C1 (amended), applied to a block of two `if` statements, from offset 0: the offset left is
-8, the deepest of the offsets given to the six locals and of the depths -4, -8, -8, -4 of the
four scope chains. -/
theorem C1_allocate_deepest_witness :
    ∃ σ' o', Statement.allocate ia32 twoIfs unallocated 0 = some (σ', o') ∧
      o' = minOffset 0 (twoIfs.symbols.map (fun x => σ' x.id)) ∧
      o' = minOffset 0 [0, -4, -8, -8, -4] ∧ o' = -8 := by
  have hC := C1_allocate_deepest ia32 twoIfs unallocated 0 (fun _ _ => rfl) (by decide)
    (by decide) (by decide)
  obtain ⟨σ', o', h⟩ := hC.2 (by decide)
  have hd : twoIfs.scopes.map (fun c => (0 : Int) - extent ia32 c) = [0, -4, -8, -8, -4] := by
    decide
  refine ⟨σ', o', h, (hC.1 σ' o' h).1, ?_, ?_⟩
  · rw [← hd]
    exact (hC.1 σ' o' h).2.2
  · rw [(hC.1 σ' o' h).2.2, hd]
    decide

/-! ## Storage allocation: independence of the store outside the declared symbols -/

theorem setOffset_congr (σ τ : Offsets) (k : Nat) (v : Int) (i : Nat) (h : τ i = σ i) :
    setOffset τ k v i = setOffset σ k v i := by
  simp only [setOffset]
  split <;> simp [h]

theorem allocateSymbols_congr (m : Machine) (l : List Symbol) :
    ∀ (σ τ : Offsets) (o : Int) (σ' : Offsets) (o' : Int),
      (∀ x ∈ l, τ x.id = σ x.id) → allocateSymbols m l σ o = some (σ', o') →
      ∃ τ', allocateSymbols m l τ o = some (τ', o') ∧ ∀ i, τ i = σ i → τ' i = σ' i := by
  induction l with
  | nil =>
    intro σ τ o σ' o' _ h
    obtain ⟨rfl, rfl⟩ := (Prod.mk.injEq _ _ _ _).mp ((allocateSymbols_nil m σ o _).1 h)
    exact ⟨τ, rfl, fun i hi => hi⟩
  | cons s rest ih =>
    intro σ τ o σ' o' hst h
    have hs := hst s (List.mem_cons_self _ _)
    by_cases hz : σ s.id = 0
    · obtain ⟨n, hn, hr⟩ := (allocateSymbols_cons_zero m s rest σ o _ hz).1 h
      obtain ⟨τ', hτ, hpost⟩ := ih (setOffset σ s.id (wrapInt (o - n)))
        (setOffset τ s.id (wrapInt (o - n))) _ _ _
        (fun x hx => setOffset_congr σ τ _ _ _ (hst x (List.mem_cons_of_mem _ hx))) hr
      exact ⟨τ', (allocateSymbols_cons_zero m s rest τ o _ (hs.trans hz)).2 ⟨n, hn, hτ⟩,
        fun i hi => hpost i (setOffset_congr σ τ _ _ _ hi)⟩
    · rw [allocateSymbols_cons_nonzero m s rest σ o hz] at h
      obtain ⟨τ', hτ, hpost⟩ :=
        ih σ τ _ _ _ (fun x hx => hst x (List.mem_cons_of_mem _ hx)) h
      refine ⟨τ', ?_, hpost⟩
      rw [allocateSymbols_cons_nonzero m s rest τ o (by rw [hs]; exact hz)]
      exact hτ

mutual
theorem allocate_congr (m : Machine) :
    ∀ (s : Statement) (σ τ : Offsets) (o : Int) (σ' : Offsets) (o' : Int),
      (∀ x ∈ s.symbols, τ x.id = σ x.id) → Statement.allocate m s σ o = some (σ', o') →
      ∃ τ', Statement.allocate m s τ o = some (τ', o') ∧ ∀ i, τ i = σ i → τ' i = σ' i
  | Statement.Block decls stmts, σ, τ, o, σ', o', hst, h => by
    simp only [Statement.symbols, List.mem_append] at hst
    obtain ⟨σ1, saved, h1, h2⟩ := (allocate_block m decls stmts σ o _).1 h
    obtain ⟨τ1, k1, p1⟩ :=
      allocateSymbols_congr m decls σ τ o σ1 saved (fun x hx => hst x (Or.inl hx)) h1
    obtain ⟨τ', k2, p2⟩ := allocateStmts_congr m stmts saved σ1 τ1 saved σ' o'
      (fun x hx => p1 _ (hst x (Or.inr hx))) h2
    exact ⟨τ', (allocate_block m decls stmts τ o _).2 ⟨τ1, saved, k1, k2⟩,
      fun i hi => p2 i (p1 i hi)⟩
  | Statement.While _ stmt, σ, τ, o, σ', o', hst, h => by
    simp only [Statement.allocate] at h ⊢
    exact allocate_congr m stmt σ τ o σ' o' (by simpa [Statement.symbols] using hst) h
  | Statement.For _ stmt, σ, τ, o, σ', o', hst, h => by
    simp only [Statement.allocate] at h ⊢
    exact allocate_congr m stmt σ τ o σ' o' (by simpa [Statement.symbols] using hst) h
  | Statement.If _ t none, σ, τ, o, σ', o', hst, h => by
    simp only [Statement.allocate] at h ⊢
    exact allocate_congr m t σ τ o σ' o' (by simpa [Statement.symbols] using hst) h
  | Statement.If c t (some e), σ, τ, o, σ', o', hst, h => by
    simp only [Statement.symbols, List.mem_append] at hst
    obtain ⟨σ1, r1, r2, h1, h2, h3⟩ := (allocate_if_else m c t e σ o _).1 h
    dsimp only at h2 h3
    obtain ⟨τ1, k1, p1⟩ := allocate_congr m t σ τ o σ1 r1 (fun x hx => hst x (Or.inl hx)) h1
    obtain ⟨τ', k2, p2⟩ :=
      allocate_congr m e σ1 τ1 o σ' r2 (fun x hx => p1 _ (hst x (Or.inr hx))) h2
    exact ⟨τ', (allocate_if_else m c t e τ o _).2 ⟨τ1, r1, r2, k1, k2, h3⟩,
      fun i hi => p2 i (p1 i hi)⟩
  | Statement.Assignment l r, σ, τ, o, σ', o', _, h => by
    obtain ⟨rfl, rfl⟩ :=
      (Prod.mk.injEq _ _ _ _).mp ((allocate_leaf m _ σ o _ (Or.inl ⟨l, r, rfl⟩)).1 h)
    exact ⟨τ, rfl, fun i hi => hi⟩
  | Statement.Expr e, σ, τ, o, σ', o', _, h => by
    obtain ⟨rfl, rfl⟩ :=
      (Prod.mk.injEq _ _ _ _).mp ((allocate_leaf m _ σ o _ (Or.inr (Or.inl ⟨e, rfl⟩))).1 h)
    exact ⟨τ, rfl, fun i hi => hi⟩
  | Statement.Other, σ, τ, o, σ', o', _, h => by
    obtain ⟨rfl, rfl⟩ :=
      (Prod.mk.injEq _ _ _ _).mp ((allocate_leaf m _ σ o _ (Or.inr (Or.inr rfl))).1 h)
    exact ⟨τ, rfl, fun i hi => hi⟩
theorem allocateStmts_congr (m : Machine) :
    ∀ (l : List Statement) (saved : Int) (σ τ : Offsets) (acc : Int) (σ' : Offsets) (o' : Int),
      (∀ x ∈ symbolsOfStmts l, τ x.id = σ x.id) →
      allocateStmts m l saved σ acc = some (σ', o') →
      ∃ τ', allocateStmts m l saved τ acc = some (τ', o') ∧ ∀ i, τ i = σ i → τ' i = σ' i
  | [], saved, σ, τ, acc, σ', o', _, h => by
    obtain ⟨rfl, rfl⟩ := (Prod.mk.injEq _ _ _ _).mp ((allocateStmts_nil m saved σ acc _).1 h)
    exact ⟨τ, rfl, fun i hi => hi⟩
  | s :: rest, saved, σ, τ, acc, σ', o', hst, h => by
    simp only [symbolsOfStmts, List.mem_append] at hst
    obtain ⟨σ1, temp, h1, h2⟩ := (allocateStmts_cons m s rest saved σ acc _).1 h
    obtain ⟨τ1, k1, p1⟩ :=
      allocate_congr m s σ τ saved σ1 temp (fun x hx => hst x (Or.inl hx)) h1
    obtain ⟨τ', k2, p2⟩ := allocateStmts_congr m rest saved σ1 τ1 (min acc temp) σ' o'
      (fun x hx => p1 _ (hst x (Or.inr hx))) h2
    exact ⟨τ', (allocateStmts_cons m s rest saved τ acc _).2 ⟨τ1, temp, k1, k2⟩,
      fun i hi => p2 i (p1 i hi)⟩
end

theorem allocateStmts_separately (m : Machine) (σ0 : Offsets) (l : List Statement) :
    ∀ (saved : Int) (σ : Offsets) (acc : Int) (σ' : Offsets) (o' : Int),
      ((symbolsOfStmts l).map Symbol.id).Nodup → (∀ x ∈ symbolsOfStmts l, σ x.id = σ0 x.id) →
      allocateStmts m l saved σ acc = some (σ', o') →
      ∃ rs, List.Forall₂ (fun s r => ∃ τ, Statement.allocate m s σ0 saved = some (τ, r)) l rs ∧
        o' = minOffset acc rs := by
  induction l with
  | nil =>
    intro saved σ acc σ' o' _ _ h
    obtain ⟨rfl, rfl⟩ := (Prod.mk.injEq _ _ _ _).mp ((allocateStmts_nil m saved σ acc _).1 h)
    exact ⟨[], List.Forall₂.nil, rfl⟩
  | cons s rest ih =>
    intro saved σ acc σ' o' hnd hag h
    simp only [symbolsOfStmts, List.map_append, List.nodup_append] at hnd
    simp only [symbolsOfStmts, List.mem_append] at hag
    obtain ⟨_, hnd2, hdis⟩ := hnd
    obtain ⟨σ1, temp, h1, h2⟩ := (allocateStmts_cons m s rest saved σ acc _).1 h
    obtain ⟨τ, k1, _⟩ := allocate_congr m s σ σ0 saved σ1 temp
      (fun x hx => (hag x (Or.inl hx)).symm) h1
    have hag1 : ∀ x ∈ symbolsOfStmts rest, σ1 x.id = σ0 x.id := fun x hx => by
      rw [allocate_frame m s _ _ _ _ h1 x.id (fun hmem => hdis hmem (List.mem_map_of_mem _ hx))]
      exact hag x (Or.inr hx)
    obtain ⟨rs, hrs, ho⟩ := ih saved σ1 (min acc temp) σ' o' hnd2 hag1 h2
    exact ⟨temp :: rs, List.Forall₂.cons ⟨τ, k1⟩ hrs, ho⟩

theorem allocateStmts_together (m : Machine) (σ0 : Offsets) (l : List Statement) :
    ∀ (saved : Int) (σ : Offsets) (acc : Int) (rs : List Int),
      ((symbolsOfStmts l).map Symbol.id).Nodup → (∀ x ∈ symbolsOfStmts l, σ x.id = σ0 x.id) →
      List.Forall₂ (fun s r => ∃ τ, Statement.allocate m s σ0 saved = some (τ, r)) l rs →
      ∃ σ', allocateStmts m l saved σ acc = some (σ', minOffset acc rs) := by
  induction l with
  | nil =>
    intro saved σ acc rs _ _ h
    cases h
    exact ⟨σ, rfl⟩
  | cons s rest ih =>
    intro saved σ acc rs hnd hag h
    simp only [symbolsOfStmts, List.map_append, List.nodup_append] at hnd
    simp only [symbolsOfStmts, List.mem_append] at hag
    obtain ⟨_, hnd2, hdis⟩ := hnd
    cases h with
    | cons hhead htail =>
      rename_i r rs'
      obtain ⟨τ, k⟩ := hhead
      obtain ⟨σ1, h1, _⟩ := allocate_congr m s σ0 σ saved τ r (fun x hx => hag x (Or.inl hx)) k
      have hag1 : ∀ x ∈ symbolsOfStmts rest, σ1 x.id = σ0 x.id := fun x hx => by
        rw [allocate_frame m s _ _ _ _ h1 x.id
          (fun hmem => hdis hmem (List.mem_map_of_mem _ hx))]
        exact hag x (Or.inr hx)
      obtain ⟨σ', h2⟩ := ih saved σ1 (min acc r) rs' hnd2 hag1 htail
      exact ⟨σ', (allocateStmts_cons m s rest saved σ acc _).2 ⟨σ1, r, h1, h2⟩⟩

theorem offset_of_map_snd {x : Option (Offsets × Int)} {v : Int}
    (h : x.map Prod.snd = some v) : ∃ τ, x = some (τ, v) := by
  cases x with
  | none => simp at h
  | some p =>
    obtain ⟨τ, w⟩ := p
    simp only [Option.map_some', Option.some.injEq] at h
    exact ⟨τ, by rw [h]⟩

/-- C2: for an `if` with an else-branch and any starting offset, `If::allocate` leaves
`min r_then r_else`, where `r_then` is the offset left by allocating the then-branch from the
starting offset and `r_else` the offset left by allocating the else-branch from that same
starting offset (in the store that the then-branch left; when the two branches declare distinct
symbols, equally in the original store). -/
theorem C2_if_else_min (m : Machine) (c : Expression) (t e : Statement) (σ : Offsets) (o : Int)
    (o' : Int) :
    (∀ σ', Statement.allocate m (Statement.If c t (some e)) σ o = some (σ', o') ↔
        ∃ σ1 r1 r2, Statement.allocate m t σ o = some (σ1, r1) ∧
          Statement.allocate m e σ1 o = some (σ', r2) ∧ o' = min r1 r2) ∧
      ((∀ i ∈ t.ids, i ∉ e.ids) →
        ((∃ σ', Statement.allocate m (Statement.If c t (some e)) σ o = some (σ', o')) ↔
          ∃ σ1 r1 τ r2, Statement.allocate m t σ o = some (σ1, r1) ∧
            Statement.allocate m e σ o = some (τ, r2) ∧ o' = min r1 r2)) := by
  refine ⟨fun σ' => allocate_if_else m c t e σ o (σ', o'), fun hdis => ⟨?_, ?_⟩⟩
  · rintro ⟨σ', h⟩
    obtain ⟨σ1, r1, r2, h1, h2, h3⟩ := (allocate_if_else m c t e σ o _).1 h
    obtain ⟨τ, k, _⟩ := allocate_congr m e σ1 σ o σ' r2 (fun x hx =>
      (allocate_frame m t _ _ _ _ h1 x.id
        (fun hmem => hdis _ hmem (List.mem_map_of_mem _ hx))).symm) h2
    exact ⟨σ1, r1, τ, r2, h1, k, h3⟩
  · rintro ⟨σ1, r1, τ, r2, h1, h2, h3⟩
    obtain ⟨σ', k, _⟩ := allocate_congr m e σ σ1 o τ r2 (fun x hx =>
      allocate_frame m t _ _ _ _ h1 x.id
        (fun hmem => hdis _ hmem (List.mem_map_of_mem _ hx))) h2
    exact ⟨σ', (allocate_if_else m c t e σ o _).2 ⟨σ1, r1, r2, h1, k, h3⟩⟩

/-- C2, applied to `if (1) { int a; } else { int b; int c; }` from offset 0: the then-branch
reaches -4, the else-branch reaches -8, and the `if` leaves -8. -/
theorem C2_if_else_min_witness :
    (Statement.allocate ia32 oneLocal unallocated 0).map Prod.snd = some (-4) ∧
      (Statement.allocate ia32 twoLocals unallocated 0).map Prod.snd = some (-8) ∧
      ∃ σ', Statement.allocate ia32 ifOneTwo unallocated 0 = some (σ', -8) := by
  have h1 : (Statement.allocate ia32 oneLocal unallocated 0).map Prod.snd = some (-4) := by
    decide
  have h2 : (Statement.allocate ia32 twoLocals unallocated 0).map Prod.snd = some (-8) := by
    decide
  obtain ⟨σ1, k1⟩ := offset_of_map_snd h1
  obtain ⟨τ, k2⟩ := offset_of_map_snd h2
  exact ⟨h1, h2, ((C2_if_else_min ia32 one oneLocal twoLocals unallocated 0 (-8)).2
    (by decide)).2 ⟨σ1, -4, τ, -8, k1, k2, by decide⟩⟩

/-- C3: for a block whose statements declare distinct symbols, `Block::allocate` leaves the
minimum of the offset reached after the block's own declarations and of the offsets left by
allocating each statement of the block separately from that same offset. -/
theorem C3_block_min (m : Machine) (decls : List Symbol) (stmts : List Statement) (σ : Offsets)
    (o : Int) (hnd : ((symbolsOfStmts stmts).map Symbol.id).Nodup) :
    (∀ σ' o', Statement.allocate m (Statement.Block decls stmts) σ o = some (σ', o') →
        ∃ σ1 saved rs, allocateSymbols m decls σ o = some (σ1, saved) ∧
          List.Forall₂ (fun s r => ∃ τ, Statement.allocate m s σ1 saved = some (τ, r))
            stmts rs ∧
          o' = minOffset saved rs) ∧
      (∀ σ1 saved rs, allocateSymbols m decls σ o = some (σ1, saved) →
        List.Forall₂ (fun s r => ∃ τ, Statement.allocate m s σ1 saved = some (τ, r)) stmts rs →
        ∃ σ', Statement.allocate m (Statement.Block decls stmts) σ o =
          some (σ', minOffset saved rs)) := by
  refine ⟨fun σ' o' h => ?_, fun σ1 saved rs h1 hrs => ?_⟩
  · obtain ⟨σ1, saved, h1, h2⟩ := (allocate_block m decls stmts σ o _).1 h
    obtain ⟨rs, hrs, ho⟩ :=
      allocateStmts_separately m σ1 stmts saved σ1 saved σ' o' hnd (fun _ _ => rfl) h2
    exact ⟨σ1, saved, rs, h1, hrs, ho⟩
  · obtain ⟨σ', h2⟩ :=
      allocateStmts_together m σ1 stmts saved σ1 saved rs hnd (fun _ _ => rfl) hrs
    exact ⟨σ', (allocate_block m decls stmts σ o _).2 ⟨σ1, saved, h1, h2⟩⟩

/-- C3, applied to a block without declarations of its own and with two `if` statements that
each need depth -8, from offset 0: the block leaves -8, not -16. -/
theorem C3_block_min_witness :
    (Statement.allocate ia32 ifOneTwo unallocated 0).map Prod.snd = some (-8) ∧
      (Statement.allocate ia32 ifTwoOne unallocated 0).map Prod.snd = some (-8) ∧
      ∃ σ', Statement.allocate ia32 twoIfs unallocated 0 = some (σ', -8) := by
  have h1 : (Statement.allocate ia32 ifOneTwo unallocated 0).map Prod.snd = some (-8) := by
    decide
  have h2 : (Statement.allocate ia32 ifTwoOne unallocated 0).map Prod.snd = some (-8) := by
    decide
  exact ⟨h1, h2, (C3_block_min ia32 [] [ifOneTwo, ifTwoOne] unallocated 0 (by decide)).2
    unallocated 0 [-8, -8] rfl
    (List.Forall₂.cons (offset_of_map_snd h1)
      (List.Forall₂.cons (offset_of_map_snd h2) List.Forall₂.nil))⟩

/-! ## Storage allocation: the parameters -/

theorem align_range (m : Machine) (x : Int) (hA : 0 < m.STACK_ALIGNMENT) :
    0 ≤ align m x ∧ align m x < m.STACK_ALIGNMENT := by
  have hA' : (0 : Int) < m.STACK_ALIGNMENT := by exact_mod_cast hA
  unfold align
  split
  · exact ⟨le_rfl, hA'⟩
  · rename_i hx
    have h1 : 0 ≤ (|x|).tmod m.STACK_ALIGNMENT := Int.tmod_nonneg _ (abs_nonneg x)
    have h2 : (|x|).tmod m.STACK_ALIGNMENT < m.STACK_ALIGNMENT := Int.tmod_lt_of_pos _ hA'
    have h3 : (|x|).tmod m.STACK_ALIGNMENT ≠ 0 := fun h0 =>
      hx (Int.tmod_eq_zero_of_dvd ((dvd_abs _ _).1 (Int.dvd_of_tmod_eq_zero h0)))
    omega

theorem align_dvd (m : Machine) (x : Int) (hA : 0 < m.STACK_ALIGNMENT) (hx : x ≤ 0) :
    (m.STACK_ALIGNMENT : Int) ∣ align m x - x := by
  have hA' : (0 : Int) < m.STACK_ALIGNMENT := by exact_mod_cast hA
  unfold align
  split
  · rename_i h0
    rw [zero_sub]
    exact (dvd_neg).2 (Int.dvd_of_tmod_eq_zero h0)
  · have habs : |x| = -x := abs_of_nonpos hx
    rw [habs, Int.tmod_eq_emod (by omega) (le_of_lt hA')]
    have h := Int.emod_add_ediv (-x) m.STACK_ALIGNMENT
    refine ⟨1 + (-x) / m.STACK_ALIGNMENT, ?_⟩
    rw [mul_add, mul_one]
    omega

theorem frameOffset_eq (m : Machine) (d : Int) (max_args : Nat)
    (h1 : -2147483648 ≤ d - max_args) (h2 : d - max_args ≤ 2147483647) :
    frameOffset m d max_args =
      d - max_args - align m (d - max_args - m.SIZEOF_REG * 2) := by
  unfold frameOffset
  rw [wrapInt_eq _ h1 h2]

theorem frameOffset_covers (m : Machine) (d : Int) (max_args : Nat)
    (hA : 0 < m.STACK_ALIGNMENT) (hd : d ≤ 0)
    (hfit : (max_args : Int) + m.SIZEOF_REG * 2 + m.STACK_ALIGNMENT - d ≤ 2147483647) :
    (m.STACK_ALIGNMENT : Int) ∣ -(frameOffset m d max_args) + m.SIZEOF_REG * 2 ∧
      -(frameOffset m d max_args) ≥ max_args - d := by
  have h1 : (0 : Int) ≤ max_args := Int.natCast_nonneg _
  have h2 : (0 : Int) ≤ m.SIZEOF_REG := Int.natCast_nonneg _
  have h3 : (0 : Int) ≤ m.STACK_ALIGNMENT := Int.natCast_nonneg _
  have hx : d - (max_args : Int) - m.SIZEOF_REG * 2 ≤ 0 := by omega
  have hdvd := align_dvd m _ hA hx
  have hr := align_range m (d - (max_args : Int) - m.SIZEOF_REG * 2) hA
  rw [frameOffset_eq m d max_args (by omega) (by omega)]
  constructor
  · have hF : -(d - max_args - align m (d - max_args - m.SIZEOF_REG * 2)) + m.SIZEOF_REG * 2 =
        align m (d - max_args - m.SIZEOF_REG * 2) - (d - max_args - m.SIZEOF_REG * 2) := by
      ring
    rw [hF]
    exact hdvd
  · omega

/-- C5 fails as stated.  On the target whose stack is aligned on 16 bytes, a function without
locals and without calls (deepest offset 0, no outgoing arguments) gets the pad 8 and the frame
size 8, which is not a multiple of 16.  And on the 4-byte target, for the deepest offset
-2147483644 and 5 bytes of outgoing arguments, `offset -= max_args` leaves 2147483647
(-2147483649 modulo 2^32), the pad is 1 and the frame size -2147483646, which is not a multiple
of 4. -/
theorem C5_frame_size_counterexample :
    align ia32_16 (0 - (0 : Nat) - ia32_16.SIZEOF_REG * 2) = 8 ∧
      -(frameOffset ia32_16 0 0) = 8 ∧
      ¬ ((ia32_16.STACK_ALIGNMENT : Int) ∣ -(frameOffset ia32_16 0 0)) ∧
      wrapInt (-2147483644 - (5 : Nat)) = 2147483647 ∧
      align ia32 (2147483647 - ia32.SIZEOF_REG * 2) = 1 ∧
      -(frameOffset ia32 (-2147483644) 5) = -2147483646 ∧
      ¬ ((ia32.STACK_ALIGNMENT : Int) ∣ -(frameOffset ia32 (-2147483644) 5)) := by
  decide

/-- C5 (amended): for a deepest local offset `d ≤ 0` and an outgoing-argument maximum
`max_args` with which the computation stays in the range of `int`
(`max_args + 2 * SIZEOF_REG + STACK_ALIGNMENT - d ≤ 2^31 - 1`), with
`pad = align(d - max_args - 2 * SIZEOF_REG)`, the frame size `-(d - max_args - pad)` plus the
`2 * SIZEOF_REG` bytes of the saved frame pointer and return address is a multiple of
`STACK_ALIGNMENT` (so the frame size itself is one whenever `STACK_ALIGNMENT` divides
`2 * SIZEOF_REG`), and `0 ≤ pad < STACK_ALIGNMENT`. -/
theorem C5_frame_size_aligned (m : Machine) (d : Int) (max_args : Nat)
    (hA : 0 < m.STACK_ALIGNMENT) (hd : d ≤ 0)
    (hfit : (max_args : Int) + m.SIZEOF_REG * 2 + m.STACK_ALIGNMENT - d ≤ 2147483647) :
    frameOffset m d max_args =
        d - max_args - align m (d - max_args - m.SIZEOF_REG * 2) ∧
      (m.STACK_ALIGNMENT : Int) ∣ -(frameOffset m d max_args) + m.SIZEOF_REG * 2 ∧
      ((m.STACK_ALIGNMENT : Int) ∣ m.SIZEOF_REG * 2 →
        (m.STACK_ALIGNMENT : Int) ∣ -(frameOffset m d max_args)) ∧
      0 ≤ align m (d - max_args - m.SIZEOF_REG * 2) ∧
      align m (d - max_args - m.SIZEOF_REG * 2) < m.STACK_ALIGNMENT := by
  have h1 : (0 : Int) ≤ max_args := Int.natCast_nonneg _
  have h2 : (0 : Int) ≤ m.SIZEOF_REG := Int.natCast_nonneg _
  have h3 : (0 : Int) ≤ m.STACK_ALIGNMENT := Int.natCast_nonneg _
  have hr := align_range m (d - (max_args : Int) - m.SIZEOF_REG * 2) hA
  have hdvd := (frameOffset_covers m d max_args hA hd hfit).1
  refine ⟨frameOffset_eq m d max_args (by omega) (by omega), hdvd, fun h2 => ?_, hr.1, hr.2⟩
  have := dvd_sub hdvd h2
  rwa [add_sub_cancel_right] at this

/-- C5 (amended), applied to the 16-byte target with deepest local offset -4 and 16 bytes of
outgoing arguments: the pad is 4, the frame size 24, and 24 + 8 is a multiple of 16. -/
theorem C5_frame_size_aligned_witness :
    -(frameOffset ia32_16 (-4) 16) = 24 ∧
      (ia32_16.STACK_ALIGNMENT : Int) ∣ -(frameOffset ia32_16 (-4) 16) + ia32_16.SIZEOF_REG * 2 :=
  ⟨by decide,
    (C5_frame_size_aligned ia32_16 (-4) 16 (by decide) (by decide) (by decide)).2.1⟩

theorem marshal_offset (m : Machine) (σ : Offsets) (args : List Expression) :
    ∀ (out : String) (offset : Nat) (out' : String) (offset' : Nat),
      marshal m σ args out offset = some (out', offset') →
      offset' = offset + footprint m args := by
  induction args with
  | nil =>
    intro out offset out' offset' h
    simp only [marshal, Option.some.injEq, Prod.mk.injEq] at h
    simp [footprint, h.2]
  | cons arg rest ih =>
    intro out offset out' offset' h
    simp only [marshal] at h
    split at h
    · exact absurd h (by simp)
    · split at h
      · exact absurd h (by simp)
      · rename_i size hsize
        have hfp : footprint m (arg :: rest) = size + footprint m rest := by
          simp [footprint, hsize]
        split at h
        · rw [ih _ _ _ _ h, hfp]; omega
        · rw [ih _ _ _ _ h, hfp]; omega

theorem foldl_max_snoc (l : List Nat) (a b : Nat) :
    (l ++ [b]).foldl max a = max (l.foldl max a) b := by
  rw [List.foldl_append]
  rfl

mutual
theorem expression_generate_max_args (m : Machine) (σ : Offsets) :
    ∀ (e : Expression) (st st' : GenState), Expression.generate m σ e st = some st' →
      st'.max_args = (Expression.callFootprints m e).foldl max st.max_args
  | Expression.Call _ _ id args, st, st', h => by
    simp only [Expression.generate] at h
    cases h1 : generateArgs m σ args st with
    | none => simp [h1] at h
    | some st1 =>
      simp only [h1] at h
      cases h2 : marshal m σ args st1.out 0 with
      | none => simp [h2] at h
      | some p =>
        obtain ⟨out, offset⟩ := p
        simp only [h2, Option.some.injEq] at h
        have hoff := marshal_offset m σ args _ _ _ _ h2
        have hargs := generateArgs_max_args m σ args st st1 h1
        rw [Expression.callFootprints, foldl_max_snoc, ← hargs, ← h]
        simp only [hoff, Nat.zero_add]
        split
        · rename_i hgt
          exact (max_eq_right (le_of_lt hgt)).symm
        · rename_i hgt
          exact (max_eq_left (not_lt.1 hgt)).symm
  | Expression.Identifier _ _, st, st', h => by
    simp only [Expression.generate, Option.some.injEq] at h
    simp [Expression.callFootprints, h]
  | Expression.Integer _ _, st, st', h => by
    simp only [Expression.generate, Option.some.injEq] at h
    simp [Expression.callFootprints, h]
  | Expression.Other _ _, st, st', h => by
    simp only [Expression.generate, Option.some.injEq] at h
    simp [Expression.callFootprints, h]
theorem generateArgs_max_args (m : Machine) (σ : Offsets) :
    ∀ (args : List Expression) (st st' : GenState), generateArgs m σ args st = some st' →
      st'.max_args = (footprintsOfArgs m args).foldl max st.max_args
  | [], st, st', h => by
    simp only [generateArgs, Option.some.injEq] at h
    simp [footprintsOfArgs, h]
  | arg :: rest, st, st', h => by
    simp only [generateArgs] at h
    cases h1 : Expression.generate m σ arg st with
    | none => simp [h1] at h
    | some st1 =>
      simp only [h1] at h
      rw [footprintsOfArgs, List.foldl_append, ← expression_generate_max_args m σ arg st st1 h1]
      exact generateArgs_max_args m σ rest st1 st' h
end

mutual
theorem statement_generate_max_args (m : Machine) (σ : Offsets) :
    ∀ (s : Statement) (st st' : GenState), Statement.generate m σ s st = some st' →
      st'.max_args = (Statement.callFootprints m s).foldl max st.max_args
  | Statement.Block _ stmts, st, st', h => by
    simp only [Statement.generate] at h
    rw [Statement.callFootprints]
    exact generateStmts_max_args m σ stmts st st' h
  | Statement.Expr e, st, st', h => by
    simp only [Statement.generate] at h
    rw [Statement.callFootprints]
    exact expression_generate_max_args m σ e st st' h
  | Statement.Assignment l r, st, st', h => by
    simp only [Statement.generate] at h
    split at h
    · exact absurd h (by simp)
    · split at h
      · exact absurd h (by simp)
      · simp only [Option.some.injEq] at h
        simp [Statement.callFootprints, ← h]
  | Statement.While _ _, st, st', h => by
    simp only [Statement.generate, Option.some.injEq] at h
    simp [Statement.callFootprints, h]
  | Statement.For _ _, st, st', h => by
    simp only [Statement.generate, Option.some.injEq] at h
    simp [Statement.callFootprints, h]
  | Statement.If _ _ _, st, st', h => by
    simp only [Statement.generate, Option.some.injEq] at h
    simp [Statement.callFootprints, h]
  | Statement.Other, st, st', h => by
    simp only [Statement.generate, Option.some.injEq] at h
    simp [Statement.callFootprints, h]
theorem generateStmts_max_args (m : Machine) (σ : Offsets) :
    ∀ (l : List Statement) (st st' : GenState), generateStmts m σ l st = some st' →
      st'.max_args = (footprintsOfStmts m l).foldl max st.max_args
  | [], st, st', h => by
    simp only [generateStmts, Option.some.injEq] at h
    simp [footprintsOfStmts, h]
  | s :: rest, st, st', h => by
    simp only [generateStmts] at h
    cases h1 : Statement.generate m σ s st with
    | none => simp [h1] at h
    | some st1 =>
      simp only [h1] at h
      rw [footprintsOfStmts, List.foldl_append, ← statement_generate_max_args m σ s st st1 h1]
      exact generateStmts_max_args m σ rest st1 st' h
end

/-- C14: `Identifier::operand` writes `global_prefix` followed by the name of the symbol when
the offset of the symbol is 0 and the decimal offset followed by `(%ebp)` otherwise;
`Integer::operand` writes `$` followed by the text of the literal.  Neither fails. -/
theorem C14_operand_text (m : Machine) (σ : Offsets) (t : CType) (symbol : Symbol)
    (value : String) :
    (σ symbol.id = 0 →
        Expression.operand m σ (Expression.Identifier t symbol) =
          some ( m.global_prefix ++ symbol.name)) ∧
      (σ symbol.id ≠ 0 →
        Expression.operand m σ (Expression.Identifier t symbol) =
          some (toString (σ symbol.id) ++ "(%ebp)")) ∧
      Expression.operand m σ (Expression.Integer t value) = some ("$" ++ value) := by
  refine ⟨fun h => ?_, fun h => ?_, rfl⟩
  · simp [Expression.operand, h]
  · simp [Expression.operand, h]

/-- C14, applied to the global `k`, to the local `x` at -4 and to the literal `1`: the operands
are `_k`, `-4(%ebp)` and `$1`. -/
theorem C14_operand_text_witness :
    Expression.operand ia32_16 xAllocated (Expression.Identifier tINT ⟨8, "k", tINT⟩) =
        some "_k" ∧
      Expression.operand ia32_16 xAllocated (Expression.Identifier tINT (intLocal 1 "x")) =
        some "-4(%ebp)" ∧
      Expression.operand ia32_16 xAllocated (lit "1") = some "$1" :=
  ⟨(C14_operand_text ia32_16 xAllocated tINT ⟨8, "k", tINT⟩ "1").1 (by decide),
    (C14_operand_text ia32_16 xAllocated tINT (intLocal 1 "x") "1").2.1 (by decide),
    (C14_operand_text ia32_16 xAllocated tINT (intLocal 1 "x") "1").2.2⟩

/-! ## The frame size: the saved registers and the outgoing arguments -/

theorem size_none_iff (m : Machine) (t : CType) :
    t.size m = none ↔
      (t.declarator = Declarator.FUNCTION ∨ t.declarator = Declarator.ERROR) := by
  obtain ⟨s, i, d, l⟩ := t
  cases d <;> simp [CType.size] <;> split_ifs <;> simp

theorem generateGlobals_cons_function (m : Machine) (s : Symbol) (rest : List Symbol)
    (out : String) (h : s.type.isFunction = true) :
    generateGlobals m (s :: rest) out = generateGlobals m rest out := by
  simp [generateGlobals, h]

theorem generateGlobals_cons_variable (m : Machine) (s : Symbol) (rest : List Symbol)
    (out : String) (h : s.type.isFunction = false) :
    generateGlobals m (s :: rest) out =
      (s.type.size m).bind (fun n => generateGlobals m rest (out ++ commLine m s n)) := by
  simp only [generateGlobals, h, commLine]
  cases s.type.size m with
  | none => rfl
  | some n => simp [String.append_assoc]

/-- C17: `generateGlobals` writes, for the symbols of the scope whose type is not a function
and in their order, one line `.comm global_prefix+name, size` each, with the size that
`Type::size` returns, and nothing for the function symbols; it returns exactly when no symbol
has the declarator ERROR, on which `Type::size` fails. -/
theorem C17_generateGlobals (m : Machine) (symbols : List Symbol) (out : String) :
    generateGlobals m symbols out =
        ((symbols.filter (fun (s : Symbol) => !s.type.isFunction)).mapM
          (fun (s : Symbol) => (s.type.size m).map (fun n =>
            "\t.comm\t" ++ m.global_prefix ++ s.name ++ ", " ++ toString n ++ "\n"))).map
          (fun lines => lines.foldl (fun text line => text ++ line) out) ∧
      ((∃ out', generateGlobals m symbols out = some out') ↔
        ∀ s ∈ symbols, s.type.declarator ≠ Declarator.ERROR) := by
  induction symbols generalizing out with
  | nil => exact ⟨rfl, by simp [generateGlobals]⟩
  | cons s rest ih =>
    cases hf : s.type.isFunction with
    | true =>
      rw [generateGlobals_cons_function m s rest out hf]
      have hd : s.type.declarator = Declarator.FUNCTION := by
        simpa [CType.isFunction] using hf
      refine ⟨?_, ?_⟩
      · rw [(ih out).1]
        simp [List.filter_cons, hf]
      · rw [(ih out).2]
        simp [hd]
    | false =>
      rw [generateGlobals_cons_variable m s rest out hf]
      have hd : s.type.declarator ≠ Declarator.FUNCTION := by
        simpa [CType.isFunction] using hf
      cases hn : s.type.size m with
      | none =>
        have he : s.type.declarator = Declarator.ERROR := by
          rcases (size_none_iff m s.type).1 hn with h | h
          · exact absurd h hd
          · exact h
        refine ⟨?_, ?_⟩
        · simp only [List.filter_cons, hf, Bool.not_false, if_true, List.mapM_cons, hn,
            Option.map_none', Option.bind_eq_bind, Option.none_bind]
        · simp [he]
      | some n =>
        have he : s.type.declarator ≠ Declarator.ERROR := fun he =>
          absurd ((size_none_iff m s.type).2 (Or.inr he)) (by simp [hn])
        refine ⟨?_, ?_⟩
        · simp only [Option.some_bind, (ih _).1, commLine, List.filter_cons, hf, Bool.not_false,
            if_true, List.mapM_cons, hn, Option.map_some', Option.bind_eq_bind]
          cases List.mapM (fun (s : Symbol) => (s.type.size m).map (fun n =>
              "\t.comm\t" ++ m.global_prefix ++ s.name ++ ", " ++ toString n ++ "\n"))
            (rest.filter (fun (s : Symbol) => !s.type.isFunction)) with
          | none => rfl
          | some lines => simp [String.append_assoc]
        · simp only [Option.some_bind, (ih _).2]
          simp [he]

/-- The text for the scope of `int x; int f(); double a[3]; char *s;`: three lines, none for `f`. -/
theorem generateGlobals_example :
    generateGlobals ia32_16 globals "" =
      some "\t.comm\t_x, 4\n\t.comm\t_a, 24\n\t.comm\t_s, 4\n" := by
  decide

/-! ## Code generation: assignments -/

theorem assignment_generate (m : Machine) (σ : Offsets) (left right : Expression)
    (st st' : GenState)
    (h : Statement.generate m σ (Statement.Assignment left right) st = some st') :
    st'.max_args = st.max_args ∧
      ∃ r l, Expression.operand m σ right = some r ∧ Expression.operand m σ left = some l ∧
        st'.out = st.out ++ "\tmovl\t" ++ r ++ ", " ++ l ++ "\n" := by
  simp only [Statement.generate] at h
  split at h
  · exact absurd h (by simp)
  · rename_i r hr
    split at h
    · exact absurd h (by simp)
    · rename_i l hl
      simp only [Option.some.injEq] at h
      exact ⟨by rw [← h], r, l, hr, hl, by rw [← h]⟩

/-- C16 fails as stated: for the assignment `x = p(1, 2)`, with `x` at -4 and no slot for the
result of the call (its offset is 0), generating the right-hand side writes the code of the call
and raises `max_args` to 8, but `Assignment::generate` does not generate the right-hand side: it
only renders the two operands, the assertion of `Expression::operand` fails on the call, and no
move instruction is written. -/
theorem C16_assignment_counterexample :
    (Expression.generate ia32 xAllocated (callP 0) ⟨"", 0⟩).map
        (fun st => (st.out, st.max_args)) =
        some ("\tmovl\t$1, %eax\n\tmovl\t%eax, 0(%esp)\n\tmovl\t$2, %eax\n" ++
          "\tmovl\t%eax, 4(%esp)\n\tcall\tp\n", 8) ∧
      Expression.operand ia32 xAllocated (callP 0) = none ∧
      (Statement.generate ia32 xAllocated (assignCall 0) ⟨"", 0⟩).map
        (fun st => (st.out, st.max_args)) = none := by
  decide

/-- C16 (amended): for an assignment whose right-hand side is an integer literal or an
identifier, `Assignment::generate` does what generating the right-hand side (which writes
nothing and leaves `max_args` as it is) followed by one
`movl <right operand>, <left operand>` does, and it returns exactly when the left operand can be
rendered; for every assignment, when `Assignment::generate` returns it has written exactly that
one move instruction and has left `max_args` as it was, and it fails when one of the two
operands cannot be rendered. -/
theorem C16_assignment_generate (m : Machine) (σ : Offsets) (left right : Expression)
    (st : GenState) :
    (((∃ t v, right = Expression.Integer t v) ∨ (∃ t x, right = Expression.Identifier t x)) →
        Expression.generate m σ right st = some st ∧
        Statement.generate m σ (Statement.Assignment left right) st =
          (Expression.generate m σ right st).bind (fun st1 =>
            (Expression.operand m σ right).bind (fun r =>
              (Expression.operand m σ left).map (fun l =>
                ⟨st1.out ++ "\tmovl\t" ++ r ++ ", " ++ l ++ "\n", st1.max_args⟩))) ∧
        ((∃ st', Statement.generate m σ (Statement.Assignment left right) st = some st') ↔
          ∃ l, Expression.operand m σ left = some l)) ∧
      (∀ st', Statement.generate m σ (Statement.Assignment left right) st = some st' →
        st'.max_args = st.max_args ∧
          ∃ r l, Expression.operand m σ right = some r ∧ Expression.operand m σ left = some l ∧
            st'.out = st.out ++ "\tmovl\t" ++ r ++ ", " ++ l ++ "\n") ∧
      ((Expression.operand m σ right = none ∨ Expression.operand m σ left = none) →
        Statement.generate m σ (Statement.Assignment left right) st = none) := by
  refine ⟨fun hr => ?_, fun st' h => assignment_generate m σ left right st st' h, fun hn => ?_⟩
  · have hgen : Expression.generate m σ right st = some st := by
      rcases hr with ⟨t, v, rfl⟩ | ⟨t, x, rfl⟩ <;> rfl
    have hop : ∃ r, Expression.operand m σ right = some r := by
      rcases hr with ⟨t, v, rfl⟩ | ⟨t, x, rfl⟩
      · exact ⟨_, rfl⟩
      · refine ⟨if σ x.id = 0 then ( m.global_prefix ++ x.name)
          else toString (σ x.id) ++ "(%ebp)", ?_⟩
        simp only [Expression.operand]
        split <;> rfl
    obtain ⟨r, hr'⟩ := hop
    refine ⟨hgen, ?_, ?_⟩
    · simp only [Statement.generate, hgen, hr', Option.some_bind]
      cases Expression.operand m σ left <;> rfl
    · simp only [Statement.generate, hr']
      cases Expression.operand m σ left <;> simp
  · simp only [Statement.generate]
    rcases hn with hn | hn
    · rw [hn]
    · rw [hn]
      cases Expression.operand m σ right <;> rfl

/-- C16 (amended), applied to `x = 1` with `x` at -4: the single instruction
`movl $1, -4(%ebp)` is written, and `max_args` stays 0. -/
theorem C16_assignment_generate_witness :
    (Statement.generate ia32 xAllocated assignLiteral ⟨"", 0⟩).map
        (fun st => (st.out, st.max_args)) = some ("\tmovl\t$1, -4(%ebp)\n", 0) ∧
      Expression.generate ia32 xAllocated (lit "1") ⟨"", 0⟩ = some ⟨"", 0⟩ := by
  have hC := (C16_assignment_generate ia32 xAllocated
    (Expression.Identifier tINT (intLocal 1 "x")) (lit "1") ⟨"", 0⟩).1 (Or.inl ⟨tINT, "1", rfl⟩)
  refine ⟨?_, hC.1⟩
  have h2 := hC.2.1
  rw [hC.1] at h2
  rw [assignLiteral, h2]
  decide

/-! ## Code generation: the text is appended -/

theorem marshal_append_left (m : Machine) (σ : Offsets) (pre : String)
    (args : List Expression) :
    ∀ (out : String) (offset : Nat),
      marshal m σ args (pre ++ out) offset =
        (marshal m σ args out offset).map (fun r => (pre ++ r.1, r.2)) := by
  induction args with
  | nil => intro out offset; rfl
  | cons arg rest ih =>
    intro out offset
    simp only [marshal]
    cases Expression.operand m σ arg with
    | none => rfl
    | some a =>
      cases arg.type.size m with
      | none => rfl
      | some size =>
        dsimp only
        split
        · simp only [String.append_assoc]
          exact ih _ _
        · simp only [String.append_assoc]
          exact ih _ _

mutual
theorem expression_generate_append_left (m : Machine) (σ : Offsets) (pre : String) :
    ∀ (e : Expression) (out : String) (k : Nat),
      Expression.generate m σ e ⟨pre ++ out, k⟩ =
        (Expression.generate m σ e ⟨out, k⟩).map (fun st => ⟨pre ++ st.out, st.max_args⟩)
  | Expression.Call _ _ id args, out, k => by
    simp only [Expression.generate]
    rw [generateArgs_append_left m σ pre args out k]
    cases generateArgs m σ args ⟨out, k⟩ with
    | none => rfl
    | some st1 =>
      simp only [Option.map_some']
      rw [marshal_append_left m σ pre args st1.out 0]
      cases marshal m σ args st1.out 0 with
      | none => rfl
      | some p =>
        obtain ⟨o, n⟩ := p
        simp only [Option.map_some', String.append_assoc]
  | Expression.Identifier _ _, out, k => rfl
  | Expression.Integer _ _, out, k => rfl
  | Expression.Other _ _, out, k => rfl
theorem generateArgs_append_left (m : Machine) (σ : Offsets) (pre : String) :
    ∀ (args : List Expression) (out : String) (k : Nat),
      generateArgs m σ args ⟨pre ++ out, k⟩ =
        (generateArgs m σ args ⟨out, k⟩).map (fun st => ⟨pre ++ st.out, st.max_args⟩)
  | [], out, k => rfl
  | arg :: rest, out, k => by
    simp only [generateArgs]
    rw [expression_generate_append_left m σ pre arg out k]
    cases Expression.generate m σ arg ⟨out, k⟩ with
    | none => rfl
    | some st1 =>
      simp only [Option.map_some']
      exact generateArgs_append_left m σ pre rest st1.out st1.max_args
end

mutual
theorem statement_generate_append_left (m : Machine) (σ : Offsets) (pre : String) :
    ∀ (s : Statement) (out : String) (k : Nat),
      Statement.generate m σ s ⟨pre ++ out, k⟩ =
        (Statement.generate m σ s ⟨out, k⟩).map (fun st => ⟨pre ++ st.out, st.max_args⟩)
  | Statement.Block _ stmts, out, k => by
    simp only [Statement.generate]
    exact generateStmts_append_left m σ pre stmts out k
  | Statement.Assignment left right, out, k => by
    simp only [Statement.generate]
    cases Expression.operand m σ right with
    | none => rfl
    | some r =>
      cases Expression.operand m σ left with
      | none => rfl
      | some l => simp only [Option.map_some', String.append_assoc]
  | Statement.Expr e, out, k => by
    simp only [Statement.generate]
    exact expression_generate_append_left m σ pre e out k
  | Statement.While _ _, out, k => rfl
  | Statement.For _ _, out, k => rfl
  | Statement.If _ _ _, out, k => rfl
  | Statement.Other, out, k => rfl
theorem generateStmts_append_left (m : Machine) (σ : Offsets) (pre : String) :
    ∀ (l : List Statement) (out : String) (k : Nat),
      generateStmts m σ l ⟨pre ++ out, k⟩ =
        (generateStmts m σ l ⟨out, k⟩).map (fun st => ⟨pre ++ st.out, st.max_args⟩)
  | [], out, k => rfl
  | s :: rest, out, k => by
    simp only [generateStmts]
    rw [statement_generate_append_left m σ pre s out k]
    cases Statement.generate m σ s ⟨out, k⟩ with
    | none => rfl
    | some st1 =>
      simp only [Option.map_some']
      exact generateStmts_append_left m σ pre rest st1.out st1.max_args
end

/-! ## Code generation: the text of a function -/

theorem allocateSymbols_prune (m : Machine) (allocated : Nat → Bool) (l : List Symbol) :
    ∀ (σ : Offsets) (o : Int), (∀ i, allocated i = true → σ i ≠ 0) →
      allocateSymbols m (l.filter (fun s => !allocated s.id)) σ o = allocateSymbols m l σ o := by
  induction l with
  | nil => intro σ o _; rfl
  | cons s rest ih =>
    intro σ o hal
    cases ha : allocated s.id with
    | true =>
      rw [allocateSymbols_cons_nonzero m s rest σ o (hal _ ha)]
      simp only [List.filter_cons, ha, Bool.not_true, Bool.false_eq_true, if_false]
      exact ih σ o hal
    | false =>
      simp only [List.filter_cons, ha, Bool.not_false, if_true]
      by_cases hz : σ s.id = 0
      · simp only [allocateSymbols, hz, if_true]
        cases s.type.size m with
        | none => rfl
        | some n =>
          refine ih _ _ (fun i hi => ?_)
          have hne : i ≠ s.id := fun heq => by rw [heq, ha] at hi; exact absurd hi (by simp)
          rw [setOffset_ne _ _ hne]
          exact hal i hi
      · rw [allocateSymbols_cons_nonzero m s _ σ o hz,
          allocateSymbols_cons_nonzero m s _ σ o hz]
        exact ih σ o hal

mutual
theorem allocate_prune (m : Machine) (allocated : Nat → Bool) :
    ∀ (s : Statement) (σ : Offsets) (o : Int), (∀ i, allocated i = true → σ i ≠ 0) →
      Statement.allocate m (Statement.prune allocated s) σ o = Statement.allocate m s σ o
  | Statement.Block decls stmts, σ, o, hal => by
    simp only [Statement.prune, Statement.allocate]
    rw [allocateSymbols_prune m allocated decls σ o hal]
    cases h1 : allocateSymbols m decls σ o with
    | none => rfl
    | some p =>
      obtain ⟨σ1, o1⟩ := p
      exact allocateStmts_prune m allocated stmts o1 σ1 o1 (fun i hi => by
        rw [allocateSymbols_skip m decls _ _ _ _ h1 i (hal i hi)]
        exact hal i hi)
  | Statement.While _ stmt, σ, o, hal => by
    simp only [Statement.prune, Statement.allocate]
    exact allocate_prune m allocated stmt σ o hal
  | Statement.For _ stmt, σ, o, hal => by
    simp only [Statement.prune, Statement.allocate]
    exact allocate_prune m allocated stmt σ o hal
  | Statement.If _ t none, σ, o, hal => by
    simp only [Statement.prune, Statement.allocate]
    exact allocate_prune m allocated t σ o hal
  | Statement.If _ t (some e), σ, o, hal => by
    simp only [Statement.prune, Statement.allocate]
    rw [allocate_prune m allocated t σ o hal]
    cases h1 : Statement.allocate m t σ o with
    | none => rfl
    | some p =>
      obtain ⟨σ1, o1⟩ := p
      dsimp only
      rw [allocate_prune m allocated e σ1 o (fun i hi => by
        rw [allocate_skip m t _ _ _ _ h1 i (hal i hi)]
        exact hal i hi)]
  | Statement.Assignment _ _, σ, o, _ => rfl
  | Statement.Expr _, σ, o, _ => rfl
  | Statement.Other, σ, o, _ => rfl
theorem allocateStmts_prune (m : Machine) (allocated : Nat → Bool) :
    ∀ (l : List Statement) (saved : Int) (σ : Offsets) (acc : Int),
      (∀ i, allocated i = true → σ i ≠ 0) →
      allocateStmts m (pruneStmts allocated l) saved σ acc = allocateStmts m l saved σ acc
  | [], saved, σ, acc, _ => rfl
  | s :: rest, saved, σ, acc, hal => by
    simp only [pruneStmts, allocateStmts]
    rw [allocate_prune m allocated s σ saved hal]
    cases h1 : Statement.allocate m s σ saved with
    | none => rfl
    | some p =>
      obtain ⟨σ1, temp⟩ := p
      exact allocateStmts_prune m allocated rest saved σ1 (min acc temp) (fun i hi => by
        rw [allocate_skip m s _ _ _ _ h1 i (hal i hi)]
        exact hal i hi)
end

/-- C13: `allocate` on a statement leaves the offset of every symbol whose offset was non-zero
on entry as it was; the only offsets it changes are those of symbols declared in the statement
whose offset was 0 on entry; and the symbols that are already allocated take no space: the
result, the running offset included, is that of the statement without their declarations. -/
theorem C13_allocate_preserves (m : Machine) (s : Statement) (σ : Offsets) (o : Int) :
    (∀ σ' o', Statement.allocate m s σ o = some (σ', o') →
        (∀ i, σ i ≠ 0 → σ' i = σ i) ∧ (∀ i, σ' i ≠ σ i → σ i = 0 ∧ i ∈ s.ids)) ∧
      Statement.allocate m (Statement.prune (fun i => decide (σ i ≠ 0)) s) σ o =
        Statement.allocate m s σ o := by
  refine ⟨fun σ' o' h => ⟨allocate_skip m s σ o σ' o' h, fun i hi => ⟨?_, ?_⟩⟩, ?_⟩
  · by_contra hz
    exact hi (allocate_skip m s σ o σ' o' h i hz)
  · by_contra hmem
    exact hi (allocate_frame m s σ o σ' o' h i hmem)
  · exact allocate_prune m _ s σ o (fun i hi => by simpa using hi)

/-- C13, applied to the body of `int g(char c, int n) { int x; { double y; } }` with the
parameters already at 8 and 12: `c` and `n` stay where they are, and the offset left, -12, is
that of `{ int x; { double y; } }`. -/
theorem C13_allocate_preserves_witness :
    ∃ σ' o', Statement.allocate ia32 charParameter.body parametersOnly 0 = some (σ', o') ∧
      σ' 1 = 8 ∧ σ' 2 = 12 ∧ o' = -12 ∧
      Statement.allocate ia32
        (Statement.Block [intLocal 3 "x"] [Statement.Block [⟨4, "y", tDOUBLE⟩] []])
        parametersOnly 0 = some (σ', o') := by
  have hs : (Statement.allocate ia32 charParameter.body parametersOnly 0).map Prod.snd =
      some (-12) := by decide
  obtain ⟨σ', h⟩ := offset_of_map_snd hs
  have hC := C13_allocate_preserves ia32 charParameter.body parametersOnly 0
  refine ⟨σ', -12, h, (hC.1 σ' _ h).1 1 (by decide), (hC.1 σ' _ h).1 2 (by decide), rfl, ?_⟩
  rw [← h, ← hC.2]
  rfl

/-! ## Storage allocation: the locals of a function -/

theorem setOffset_self (σ : Offsets) (i : Nat) (v : Int) (h : σ i = v) :
    setOffset σ i v = σ := by
  funext j
  by_cases hj : j = i
  · rw [hj, setOffset_same, h]
  · rw [setOffset_ne _ _ hj]

theorem allocateSymbols_fixed (m : Machine) (σ : Offsets) (l : List Symbol)
    (h : ∀ x ∈ l, σ x.id = 0 → x.type.size m = some 0) :
    allocateSymbols m l σ 0 = some (σ, 0) := by
  induction l with
  | nil => rfl
  | cons s rest ih =>
    have ih' := ih (fun x hx => h x (List.mem_cons_of_mem _ hx))
    by_cases hz : σ s.id = 0
    · refine (allocateSymbols_cons_zero m s rest σ 0 _ hz).2
        ⟨0, h s (List.mem_cons_self _ _) hz, ?_⟩
      have h0 : wrapInt ((0 : Int) - ((0 : Nat) : Int)) = 0 := by decide
      rw [h0, setOffset_self σ s.id 0 hz]
      exact ih'
    · rw [allocateSymbols_cons_nonzero m s rest σ 0 hz]
      exact ih'

mutual
theorem allocate_fixed (m : Machine) (σ : Offsets) :
    ∀ (s : Statement), (∀ x ∈ s.symbols, σ x.id = 0 → x.type.size m = some 0) →
      Statement.allocate m s σ 0 = some (σ, 0)
  | Statement.Block decls stmts, h => by
    simp only [Statement.symbols, List.mem_append] at h
    exact (allocate_block m decls stmts σ 0 _).2 ⟨σ, 0,
      allocateSymbols_fixed m σ decls (fun x hx => h x (Or.inl hx)),
      allocateStmts_fixed m σ stmts (fun x hx => h x (Or.inr hx))⟩
  | Statement.While _ stmt, h => by
    simp only [Statement.allocate]
    exact allocate_fixed m σ stmt (by simpa [Statement.symbols] using h)
  | Statement.For _ stmt, h => by
    simp only [Statement.allocate]
    exact allocate_fixed m σ stmt (by simpa [Statement.symbols] using h)
  | Statement.If _ t none, h => by
    simp only [Statement.allocate]
    exact allocate_fixed m σ t (by simpa [Statement.symbols] using h)
  | Statement.If c t (some e), h => by
    simp only [Statement.symbols, List.mem_append] at h
    exact (allocate_if_else m c t e σ 0 _).2 ⟨σ, 0, 0,
      allocate_fixed m σ t (fun x hx => h x (Or.inl hx)),
      allocate_fixed m σ e (fun x hx => h x (Or.inr hx)), rfl⟩
  | Statement.Assignment _ _, _ => rfl
  | Statement.Expr _, _ => rfl
  | Statement.Other, _ => rfl
theorem allocateStmts_fixed (m : Machine) (σ : Offsets) :
    ∀ (l : List Statement), (∀ x ∈ symbolsOfStmts l, σ x.id = 0 → x.type.size m = some 0) →
      allocateStmts m l 0 σ 0 = some (σ, 0)
  | [], _ => rfl
  | s :: rest, h => by
    simp only [symbolsOfStmts, List.mem_append] at h
    exact (allocateStmts_cons m s rest 0 σ 0 _).2 ⟨σ, 0,
      allocate_fixed m σ s (fun x hx => h x (Or.inl hx)),
      allocateStmts_fixed m σ rest (fun x hx => h x (Or.inr hx))⟩
end

end SimpleC
